import Mathlib

/-!
Verification of the midil-kit event-consumer core: the handler-graph
dispatcher (`midil/event/consumers/core/dispatcher.py`), the handler router
(`midil/event/consumers/core/router.py`), the dependency-graph validator
(`midil/event/consumers/core/graph.py`), the SQS consumer
(`midil/event/consumer/sqs.py`) and the SQS queue wrapper
(`midil/event/consumer/queues/sqs.py`).

The Python code is embedded shallowly:

* handler callables are modelled as functions from the `HandlerContext` they
  receive to an outcome (normal return with a value, or a raised exception);
  values and exceptions are opaque to the dispatcher and are modelled as `Nat`;
* the asyncio execution of the dispatcher is modelled as a step machine in
  which the unit of atomicity is one handler attempt together with the
  bookkeeping the dispatcher performs when the attempt returns; an explicit
  scheduling function chooses which running task performs its next attempt,
  which captures the nondeterministic completion order of `asyncio.wait`;
* wall-clock behaviour (per-attempt timeouts, backoff sleeps) is absorbed
  into the handler-outcome oracle: a timed-out or failed attempt is an
  attempt whose outcome is an exception;
* the state store is an oracle describing, per call, whether the call raises;
* loops whose termination is not structural carry an explicit fuel argument;
  fuel bounds are chosen large enough and sufficiency is proved where a claim
  depends on it.
-/

deriving instance DecidableEq for Except

/-- `FailurePolicy` from `consumers/core/types.py`. -/
inductive FailurePolicy
| ABORT
| CONTINUE
| COMPENSATE
deriving DecidableEq, Repr

/-- `HandlerStatus` from `consumers/core/types.py`. -/
inductive HandlerStatus
| PENDING
| RUNNING
| SUCCEEDED
| FAILED
| SKIPPED
deriving DecidableEq, Repr

/-- Outcome of awaiting one handler attempt: a normal return carrying a value,
or a raised exception. Values and exceptions are opaque and modelled as `Nat`. -/
inductive HandlerOutcome
| ok (v : Nat)
| exn (e : Nat)
deriving DecidableEq, Repr

/-- The dispatched event: a dict of which the dispatcher reads only the
`"type"` key (absent key modelled as `none`); the payload is opaque. -/
structure Event where
  type? : Option String
  data : Nat
deriving DecidableEq, Repr

/-- `HandlerContext` from `consumers/core/types.py`: immutable context built
per attempt. `deps_results` is the copy of `message_state.results` taken when
the attempt starts. -/
structure HandlerContext where
  event : Event
  deps_results : List (String × Nat)
  attempt : Nat
  message_id : String
  metadata : List (String × Nat)
deriving DecidableEq, Repr

/-- `RetryPolicy` from `midil/utils/retry.py`: `max_attempts` and
`should_retry(attempt, exception)`. -/
structure RetryPolicy where
  max_attempts : Nat
  should_retry : Nat → Nat → Bool

/-- `NoRetryPolicy` from `midil/utils/retry.py`. -/
def NoRetryPolicy : RetryPolicy :=
  { max_attempts := 1, should_retry := fun _ _ => false }

/-- `ExponentialRetryPolicy` from `midil/utils/retry.py`: retries while
`attempt < max_attempts`, regardless of the exception. -/
def ExponentialRetryPolicy (m : Nat := 3) : RetryPolicy :=
  { max_attempts := m, should_retry := fun attempt _ => attempt < m }

/-- `HandlerSpec` from `consumers/core/router.py`. The callable is modelled by
the outcome it produces for the context it is invoked with; the backoff
strategy only produces sleep durations and is dropped from the model. -/
structure HandlerSpec where
  name : String
  handler : HandlerContext → HandlerOutcome
  depends_on : List String
  retry_policy : RetryPolicy
  failure_policy : FailurePolicy
  metadata : List (String × Nat) := []

/-- `HandlerState` from `consumers/core/types.py`. -/
structure HandlerState where
  status : HandlerStatus := HandlerStatus.PENDING
  attempts : Nat := 0
  result : Option Nat := none
  last_error : Option Nat := none
deriving DecidableEq, Repr

/-- `MessageState` from `consumers/core/types.py`. Python dicts are modelled
as insertion-ordered association lists. -/
structure MessageState where
  message_id : String
  handler_states : List (String × HandlerState) := []
  results : List (String × Nat) := []
  overall_status : String := "processing"
deriving DecidableEq, Repr

/-- Lookup in an insertion-ordered association list (Python `d[k]` /
`d.get(k)`). -/
def lookupA {α : Type} (l : List (String × α)) (k : String) : Option α :=
  (l.find? (fun p => p.1 = k)).map (fun p => p.2)

/-- Update in an insertion-ordered association list (Python `d[k] = v`):
replaces the first binding of `k` in place, appends if absent. -/
def setA {α : Type} : List (String × α) → String → α → List (String × α)
  | [], k, v => [(k, v)]
  | (k1, v1) :: rest, k, v =>
    if k1 = k then (k, v) :: rest else (k1, v1) :: setA rest k v

/-- Names of a handler mapping, in insertion order (Python `specs.keys()`). -/
def specNames (specs : List HandlerSpec) : List String :=
  specs.map (fun s => s.name)

/-- `specs[n].depends_on` (first binding wins, as in a dict with unique keys;
absent keys give `[]`, a case the Python code never reaches). -/
def dependsOn (specs : List HandlerSpec) (n : String) : List String :=
  match specs.find? (fun s => s.name = n) with
  | some s => s.depends_on
  | none => []

/-! ## Graph validator (`consumers/core/graph.py`) -/

/-- Errors of `GraphValidator`: `DependencyRegistrationError` (handler `n`
depends on unknown handler `d`), `CycleDetectedError` carrying the reported
cycle path, the `KeyError` Python would raise on `colors[node]` for a node
that is not a key of `specs`, and an out-of-fuel marker that is an artifact
of the embedding and is proved unreachable. -/
inductive GraphError
| depReg (n d : String)
| cycleDetected (path : List String)
| keyError (n : String)
| outOfFuel
deriving DecidableEq, Repr

/-- Result of the three-colour DFS: the updated list of blackened nodes in
blackening order, an error, or fuel exhaustion. -/
inductive DfsResult
| ok (black : List String)
| err (e : GraphError)
| fail
deriving DecidableEq, Repr

mutual

/-- `dfs` from `GraphValidator._validate_no_cycles`. `black` is the list of
BLACK nodes in blackening order; GRAY nodes are exactly the members of
`path`; all other nodes are WHITE. The fuel, a model artifact, is consumed
on every call; `dfsFuel` below is proved sufficient. -/
def dfsVisit (specs : List HandlerSpec) :
    Nat → List String → List String → String → DfsResult
  | 0, _, _, _ => DfsResult.fail
  | fuel + 1, black, path, node =>
    if node ∉ specNames specs then DfsResult.err (GraphError.keyError node)
    else if node ∈ path then
      DfsResult.err (GraphError.cycleDetected
        (path.drop (path.indexOf node) ++ [node]))
    else if node ∈ black then DfsResult.ok black
    else dfsList specs fuel black (path ++ [node]) (dependsOn specs node) node

/-- The `for dep in specs[node].depends_on` loop of `dfs`, followed by
`path.pop(); colors[node] = BLACK` once all deps are processed. -/
def dfsList (specs : List HandlerSpec) :
    Nat → List String → List String → List String → String → DfsResult
  | 0, _, _, _, _ => DfsResult.fail
  | _ + 1, black, _, [], node => DfsResult.ok (black ++ [node])
  | fuel + 1, black, path, d :: rest, node =>
    match dfsVisit specs fuel black path d with
    | DfsResult.ok black1 => dfsList specs fuel black1 path rest node
    | r => r

end

/-- A fuel budget sufficient for the DFS (proved below): the call tree has
depth at most the sum over all handlers of `|depends_on| + 2`. -/
def dfsFuel (specs : List HandlerSpec) : Nat :=
  (specs.map (fun s => s.depends_on.length + 2)).sum + 1

/-- `GraphValidator._validate_dependencies_exist`: first spec (in insertion
order) with a dependency that is not a handler name raises
`DependencyRegistrationError`. -/
def validateDepsExist (specs : List HandlerSpec) :
    List HandlerSpec → Except GraphError Unit
  | [] => Except.ok ()
  | s :: rest =>
    match s.depends_on.find? (fun d => d ∉ specNames specs) with
    | some d => Except.error (GraphError.depReg s.name d)
    | none => validateDepsExist specs rest

/-- The `for name in specs: if colors[name] == WHITE: dfs(name, [])` outer
loop of `_validate_no_cycles` (at the top level GRAY is empty, so WHITE is
exactly "not black"). -/
def validateRoots (specs : List HandlerSpec) :
    List String → List String → Except GraphError Unit
  | _, [] => Except.ok ()
  | black, n :: rest =>
    if n ∈ black then validateRoots specs black rest
    else
      match dfsVisit specs (dfsFuel specs) black [] n with
      | DfsResult.ok black1 => validateRoots specs black1 rest
      | DfsResult.err e => Except.error e
      | DfsResult.fail => Except.error GraphError.outOfFuel

/-- `GraphValidator._validate_no_cycles`. -/
def validateNoCycles (specs : List HandlerSpec) : Except GraphError Unit :=
  validateRoots specs [] (specNames specs)

/-- `GraphValidator.validate`. -/
def GraphValidator.validate (specs : List HandlerSpec) : Except GraphError Unit :=
  match validateDepsExist specs specs with
  | Except.error e => Except.error e
  | Except.ok () => validateNoCycles specs

/-! Spec-level cycle theory, following the spec words "a cycle exists": an
edge goes from a handler to each entry of its `depends_on`, and a cycle is a
nonempty walk from a node to itself. -/

/-- Modelled from the spec: a `depends_on` edge of the registered graph. -/
def depEdge (specs : List HandlerSpec) (a b : String) : Prop :=
  a ∈ specNames specs ∧ b ∈ dependsOn specs a

/-- Modelled from the spec: a nonempty walk along `depends_on` edges. -/
inductive DepWalk (specs : List HandlerSpec) : String → String → Prop
| single {a b : String} : depEdge specs a b → DepWalk specs a b
| cons {a b c : String} : depEdge specs a b → DepWalk specs b c → DepWalk specs a c

/-- Modelled from the spec: "a cycle exists" in the `depends_on` graph. -/
def HasCycle (specs : List HandlerSpec) : Prop :=
  ∃ a, DepWalk specs a a

/-- The reported cycle path: at least two entries, first and last equal, and
consecutive entries joined by `depends_on` edges. -/
def IsDepCycle (specs : List HandlerSpec) (c : List String) : Prop :=
  2 ≤ c.length ∧ c.head? = c.getLast? ∧ List.Chain' (depEdge specs) c

/-! ## Handler router (`consumers/core/router.py`)

Python's `Dict[HandlerName, HandlerSpec]` maps are modelled as spec lists
keyed by the `name` field: every binding `route` ever creates satisfies
`key = spec.name` (the spec is constructed with the resolved name), so the
key is stored once, inside the spec. -/

/-- Remove the first spec named `n` (Python `del specs[n]`). -/
def eraseSpec : List HandlerSpec → String → List HandlerSpec
  | [], _ => []
  | s :: rest, n => if s.name = n then rest else s :: eraseSpec rest n

/-- The router: `_handlers` is the `defaultdict(dict)` from event type to the
handler map, `_handler_counter` backs auto-generated fallback names. -/
structure EventRouter where
  handlers : List (String × List HandlerSpec) := []
  handler_counter : Nat := 0

/-- `EventRouter.handlers_for`: snapshot of the map for an event type (the
`.copy()` is the identity in a pure model). -/
def EventRouter.handlers_for (r : EventRouter) (event_type : String) :
    List HandlerSpec :=
  (lookupA r.handlers event_type).getD []

/-- The `self._handlers[event_type]` access on a `defaultdict`: creates an
empty entry when the key is absent. -/
def ensureKey (hs : List (String × List HandlerSpec)) (et : String) :
    List (String × List HandlerSpec) :=
  if (lookupA hs et).isSome then hs else hs ++ [(et, [])]

/-- `EventRouter._generate_handler_name`: `module.qualname` when the handler
carries one (`ident`), else the counter fallback. -/
def generate_handler_name (r : EventRouter) (ident : Option String) :
    String × EventRouter :=
  match ident with
  | some s => (s, r)
  | none =>
    ("handler_" ++ toString (r.handler_counter + 1),
      { r with handler_counter := r.handler_counter + 1 })

/-- Errors raised by `EventRouter.route`: the duplicate-name
`DependencyRegistrationError`, or a `DependencyGraphError` propagated from
`GraphValidator.validate`. -/
inductive RouteError
| duplicateName (name event_type : String)
| graph (e : GraphError)
deriving DecidableEq, Repr

/-- The `if name is None: name = self._generate_handler_name(handler)` step. -/
def resolveName (r : EventRouter) (ident name? : Option String) :
    String × EventRouter :=
  match name? with
  | some n => (n, r)
  | none => generate_handler_name r ident

/-- Lines 108-126 of `route`: duplicate check, insert, validate, rollback on
`DependencyGraphError`. -/
def routeInsert (r1 : EventRouter) (event_type : String) (spec : HandlerSpec) :
    Except RouteError (HandlerContext → HandlerOutcome) × EventRouter :=
  if spec.name ∈
      specNames ((lookupA (ensureKey r1.handlers event_type) event_type).getD []) then
    (Except.error (RouteError.duplicateName spec.name event_type),
      { r1 with handlers := ensureKey r1.handlers event_type })
  else
    match GraphValidator.validate
        (((lookupA (ensureKey r1.handlers event_type) event_type).getD []) ++ [spec]) with
    | Except.error e =>
      (Except.error (RouteError.graph e),
        { r1 with
          handlers :=
            setA (ensureKey r1.handlers event_type) event_type
              (eraseSpec
                (((lookupA (ensureKey r1.handlers event_type) event_type).getD [])
                  ++ [spec])
                spec.name) })
    | Except.ok () =>
      (Except.ok spec.handler,
        { r1 with
          handlers :=
            setA (ensureKey r1.handlers event_type) event_type
              (((lookupA (ensureKey r1.handlers event_type) event_type).getD [])
                ++ [spec]) })

/-- `EventRouter.route`. Returns the raised error or the original handler,
together with the router state after the call (on validation failure the
inserted spec is deleted again; the `defaultdict` entry created by the
subscript access remains, as in Python). `timeout_seconds` and the backoff
strategy only shape wall-clock behaviour and are dropped from the model. -/
def EventRouter.route (r : EventRouter) (event_type : String)
    (handler : HandlerContext → HandlerOutcome) (ident : Option String)
    (name? : Option String) (depends_on : Option (List String))
    (retry_policy : Option RetryPolicy) (failure_policy : Option FailurePolicy)
    (md : Option (List (String × Nat))) :
    Except RouteError (HandlerContext → HandlerOutcome) × EventRouter :=
  let nr := resolveName r ident name?
  routeInsert nr.2 event_type
    { name := nr.1, handler := handler,
      depends_on := depends_on.getD [],
      retry_policy := retry_policy.getD (ExponentialRetryPolicy 3),
      failure_policy := failure_policy.getD FailurePolicy.ABORT,
      metadata := md.getD [] }

/-! ## SQS consumer configuration (`consumer/sqs.py`, `SQSConsumerConfig`) -/

/-- The fields of `SQSConsumerConfig` that carry pydantic constraints, plus
the targets. `poll_interval` is a float field and is modelled as a rational. -/
structure SQSConsumerConfig where
  endpoint : String := ""
  dlq_uri : Option String := none
  visibility_timeout : Int := 30
  max_number_of_messages : Int := 10
  wait_time_seconds : Int := 20
  poll_interval : ℚ := 1 / 10
  max_concurrent_messages : Int := 10
  max_retries : Int := 3

/-- The pydantic field validation run at construction: the conjunction of the
declared `Field` bounds (`ge`/`le`); a config is accepted iff this holds. -/
def SQSConsumerConfig.fieldConstraintsHold (c : SQSConsumerConfig) : Bool :=
  decide (0 ≤ c.visibility_timeout) &&
  decide (1 ≤ c.max_number_of_messages) &&
  decide (c.max_number_of_messages ≤ 10) &&
  decide (0 ≤ c.wait_time_seconds) &&
  decide (c.wait_time_seconds ≤ 20) &&
  decide (0 ≤ c.poll_interval) &&
  decide (1 ≤ c.max_concurrent_messages) &&
  decide (0 ≤ c.max_retries)

/-! ## SQS consumer ack/nack (`consumer/sqs.py`) -/

/-- `Message` from `consumer/strategies/base.py`; the payload is opaque. -/
structure Message where
  id : String
  body : String
  ack_handle : Option String
  metadata : List (String × String) := []
deriving DecidableEq, Repr

/-- Python truthiness of an `Optional[str]`. -/
def optStrTruthy : Option String → Bool
  | none => false
  | some s => !s.isEmpty

/-- Calls issued to the boto3 SQS client. `send_message` carries the message
whose `model_dump_json()` forms the body. -/
inductive SqsClientCall
| send_message (queue_url : String) (msg : Message) (group_id dedup_id : String)
| delete_message (queue_url : String) (receipt_handle : Option String)
| change_visibility (queue_url : String) (receipt_handle : Option String)
    (visibility_timeout : Nat)
deriving DecidableEq, Repr

/-- `SQSConsumer.ack`: delete the message from the source queue. -/
def SQSConsumer.ack (cfg : SQSConsumerConfig) (m : Message) : List SqsClientCall :=
  [SqsClientCall.delete_message cfg.endpoint m.ack_handle]

/-- `SQSConsumer.nack`: the SQS client calls it issues, in order, on the
non-raising client path. -/
def SQSConsumer.nack (cfg : SQSConsumerConfig) (m : Message)
    (requeue : Bool := true) : List SqsClientCall :=
  if requeue && optStrTruthy cfg.dlq_uri then
    SqsClientCall.send_message (cfg.dlq_uri.getD "") m
        ((lookupA m.metadata "MessageGroupId").getD "default")
        ((lookupA m.metadata "MessageDeduplicationId").getD m.id)
      :: SQSConsumer.ack cfg m
  else
    [SqsClientCall.change_visibility cfg.endpoint m.ack_handle 0]

/-! ## Dispatcher (`consumers/core/dispatcher.py`)

The asyncio execution of `_execute_handler_graph` is modelled as a step
machine. A step either starts tasks from the ready queue (the inner
`while ready_queue and len(running_tasks) < concurrency_limit` loop, which
the outer loop runs before every `asyncio.wait`) or lets one running task,
chosen by an explicit scheduling function, execute its next attempt of
`_run_handler_with_retries` together with the completion bookkeeping of
`_run_and_handle_completion`. The semaphore never blocks because task
creation is already capped at `concurrency_limit` permits, so it is not
modelled separately. -/

/-- The oracle for the state store: for each call, `none` means the call
returns normally, `some e` means it raises exception `e`. -/
structure StateStore where
  init_error : Option Nat := none
  save_error : String → Option Nat := fun _ => none
  mark_failed_error : String → Option Nat := fun _ => none

/-- A queue object passed to `dispatch`. `visibility_param` is the declared
name of the second parameter of its `change_message_visibility` method
(`"visibility_timeout"` on `SQSEventQueue` and on the abstract `EventQueue`
base, `"visibility_seconds"` on the `QueueLike` protocol of
`consumers/core/types.py`); a keyword call with any other name raises
`TypeError` before the method body runs. -/
structure QueueObject where
  has_change_message_visibility : Bool := true
  visibility_param : String

/-- `SQSEventQueue` from `consumer/queues/sqs.py`: its
`change_message_visibility(self, receipt_handle, visibility_timeout)` names
the second parameter `visibility_timeout`. -/
def SQSEventQueue : QueueObject :=
  { visibility_param := "visibility_timeout" }

/-- Observable events of one dispatch, in execution order. -/
inductive DispatchEvent
| handlerStarted (name : String)
| attemptStarted (name : String) (ctx : HandlerContext)
| attemptReturned (name : String) (v : Nat)
| attemptErrored (name : String) (e : Nat)
| visibilityCallAttempted (receipt : String) (kw : String) (seconds : Nat)
| visibilityReachedQueue (receipt : String) (seconds : Nat)
| handlerSucceeded (name : String) (v : Nat)
| handlerFailed (name : String)
deriving DecidableEq, Repr

/-- A task created by `asyncio.create_task(self._run_and_handle_completion …)`
that is still running: it is executing its retry loop and will next run
`attempt` (1-based). -/
structure RunningTask where
  name : String
  attempt : Nat
deriving DecidableEq, Repr

/-- The state of one `_execute_handler_graph` run. -/
structure ExecState where
  mstate : MessageState
  ready_queue : List String
  in_progress : List String
  completed : List String
  failed : List String
  running : List RunningTask
  trace : List DispatchEvent
deriving DecidableEq, Repr

/-- The fixed inputs of one dispatch. -/
structure DispatchEnv where
  handlers : List HandlerSpec
  store : StateStore := {}
  concurrency_limit : Nat := 10
  event : Event
  message_id : String
  receipt_handle : String
  queue : Option QueueObject := none

/-- `message_state.handler_states[name]`, defaulting to a fresh state for a
missing key (the Python code only touches initialized keys). -/
def hstateOf (ms : MessageState) (n : String) : HandlerState :=
  (lookupA ms.handler_states n).getD {}

/-- The status recorded for a handler. -/
def statusOf (ms : MessageState) (n : String) : HandlerStatus :=
  (hstateOf ms n).status

/-- In-place update of one handler state
(`message_state.handler_states[name].field = …`). -/
def updateHState (ms : MessageState) (n : String)
    (f : HandlerState → HandlerState) : MessageState :=
  { ms with handler_states := setA ms.handler_states n (f (hstateOf ms n)) }

/-- The applied `dependents_map` of `_build_dependents_map`: all handlers
listing `x` among their dependencies, in registration order. -/
def dependentsOf (handlers : List HandlerSpec) (x : String) : List String :=
  (handlers.filter (fun s => x ∈ s.depends_on)).map (fun s => s.name)

/-- `EventDispatcher._all_dependencies_satisfied`. `fp` is the failure policy
the caller passes, which is the policy of the handler that just finished. -/
def all_dependencies_satisfied (spec : HandlerSpec)
    (completed failed : List String) (fp : FailurePolicy) : Bool :=
  spec.depends_on.all fun dep =>
    !(failed.contains dep && fp == FailurePolicy.ABORT) &&
    (completed.contains dep || failed.contains dep)

/-- `EventDispatcher._schedule_ready_dependents` with the dependent-spec
lookup restricted to the dispatched event's map. The source scans
`router._handlers` across all event types (modeled faithfully by
`schedule_ready_dependentsR` below, which this function provably equals
whenever the router-wide lookup agrees with the dispatched map); the claims
whose properties are insensitive to the lookup scope are stated over this
specialization. -/
def schedule_ready_dependents (handlers : List HandlerSpec)
    (completed_handler : String) (fp : FailurePolicy)
    (completed failed in_progress : List String)
    (ready : List String) : List String :=
  (dependentsOf handlers completed_handler).foldl
    (fun rq dependent =>
      if dependent ∉ completed ∧ dependent ∉ failed ∧
          dependent ∉ in_progress ∧ dependent ∉ rq then
        match handlers.find? (fun s => s.name = dependent) with
        | some dep_spec =>
          if all_dependencies_satisfied dep_spec completed failed fp then
            rq ++ [dependent]
          else rq
        | none => rq
      else rq)
    ready

/-- The worklist loop of `EventDispatcher._mark_dependents_skipped`. -/
def markSkippedGo (handlers : List HandlerSpec) :
    Nat → List String → MessageState → MessageState
  | 0, _, ms => ms
  | _ + 1, [], ms => ms
  | fuel + 1, d :: rest, ms =>
    if statusOf ms d = HandlerStatus.PENDING then
      markSkippedGo handlers fuel (rest ++ dependentsOf handlers d)
        (updateHState ms d (fun h => { h with status := HandlerStatus.SKIPPED }))
    else markSkippedGo handlers fuel rest ms

/-- `EventDispatcher._mark_dependents_skipped`. The fuel bounds the worklist:
`(N+1)^2` pops suffice because at most `N` markings each enqueue at most `N`
dependents (proved below where a claim needs it). -/
def mark_dependents_skipped (handlers : List HandlerSpec)
    (failed_handler : String) (ms : MessageState) : MessageState :=
  markSkippedGo handlers
    ((handlers.length + 1) * (handlers.length + 1))
    (dependentsOf handlers failed_handler) ms

/-- The visibility-extension call of `_run_handler_with_retries` (lines
236-244): `queue.change_message_visibility(receipt_handle,
visibility_seconds=30)` inside `try/except`; a `TypeError` from a keyword
mismatch, like any failure, is logged and ignored. -/
def visEvents (env : DispatchEnv) : List DispatchEvent :=
  match env.queue with
  | none => []
  | some q =>
    if q.has_change_message_visibility then
      DispatchEvent.visibilityCallAttempted env.receipt_handle
          "visibility_seconds" 30
        :: (if q.visibility_param = "visibility_seconds" then
              [DispatchEvent.visibilityReachedQueue env.receipt_handle 30]
            else [])
    else []

/-- Lines 166-189 of `_run_and_handle_completion`: the `except` block run
when the retry loop (or a state-store write inside the `try`) raises `e`.
If `mark_handler_failed` itself raises, the exception escapes the task and
is re-raised by `await task` in `_execute_handler_graph`. -/
def failCompletion (env : DispatchEnv) (st : ExecState) (name : String)
    (spec : HandlerSpec) (e : Nat) : Except (Nat × ExecState) ExecState :=
  let ms1 := updateHState st.mstate name
    (fun h => { h with status := HandlerStatus.FAILED, last_error := some e })
  match env.store.mark_failed_error name with
  | some me => Except.error (me, { st with mstate := ms1 })
  | none =>
    let failed1 := st.failed ++ [name]
    let inprog1 := st.in_progress.erase name
    if spec.failure_policy = FailurePolicy.ABORT then
      Except.ok { st with
        mstate := mark_dependents_skipped env.handlers name ms1,
        failed := failed1, in_progress := inprog1,
        trace := st.trace ++ [DispatchEvent.handlerFailed name] }
    else
      Except.ok { st with
        mstate := ms1, failed := failed1, in_progress := inprog1,
        ready_queue := schedule_ready_dependents env.handlers name
          spec.failure_policy st.completed failed1 inprog1 st.ready_queue,
        trace := st.trace ++ [DispatchEvent.handlerFailed name] }

/-- One attempt of the task `t` (one iteration of the retry loop of
`_run_handler_with_retries`), together with the completion bookkeeping of
`_run_and_handle_completion` when the attempt settles the handler. `st` no
longer contains `t` in `running`; a retrying task re-enters `running` with
the next attempt number. -/
def runAttempt (env : DispatchEnv) (st : ExecState) (t : RunningTask) :
    Except (Nat × ExecState) ExecState :=
  match env.handlers.find? (fun s => s.name = t.name) with
  | none => Except.ok st
  | some spec =>
    let ms0 := updateHState st.mstate t.name
      (fun h => { h with attempts := t.attempt, status := HandlerStatus.RUNNING })
    let ctx : HandlerContext :=
      { event := env.event, deps_results := ms0.results, attempt := t.attempt,
        message_id := ms0.message_id, metadata := spec.metadata }
    let tr1 := st.trace ++ [DispatchEvent.attemptStarted t.name ctx]
    match spec.handler ctx with
    | HandlerOutcome.ok v =>
      let tr2 := tr1 ++ [DispatchEvent.attemptReturned t.name v]
      let ms1 := updateHState ms0 t.name
        (fun h => { h with status := HandlerStatus.SUCCEEDED, result := some v })
      let ms2 := { ms1 with results := setA ms1.results t.name v }
      match env.store.save_error t.name with
      | some se =>
        failCompletion env { st with mstate := ms2, trace := tr2 } t.name spec se
      | none =>
        let completed1 := st.completed ++ [t.name]
        let inprog1 := st.in_progress.erase t.name
        Except.ok { st with
          mstate := ms2,
          completed := completed1, in_progress := inprog1,
          ready_queue := schedule_ready_dependents env.handlers t.name
            spec.failure_policy completed1 st.failed inprog1 st.ready_queue,
          trace := tr2 ++ [DispatchEvent.handlerSucceeded t.name v] }
    | HandlerOutcome.exn e =>
      let tr2 := tr1 ++ [DispatchEvent.attemptErrored t.name e]
      if spec.retry_policy.should_retry t.attempt e then
        Except.ok { st with
          mstate := ms0, trace := tr2 ++ visEvents env,
          running := st.running ++ [{ name := t.name, attempt := t.attempt + 1 }] }
      else
        failCompletion env { st with mstate := ms0, trace := tr2 } t.name spec e

/-- The inner `while ready_queue and len(running_tasks) < concurrency_limit`
loop: pop names, skip those already `in_progress`, create a task for the
rest. Returns the drained ready queue and the extended running/in-progress
sets and trace. -/
def fillReady (env : DispatchEnv) :
    List String → List RunningTask → List String → List DispatchEvent →
    List String × List RunningTask × List String × List DispatchEvent
  | [], running, inprog, tr => ([], running, inprog, tr)
  | n :: rest, running, inprog, tr =>
    if running.length < env.concurrency_limit then
      if n ∈ inprog then fillReady env rest running inprog tr
      else fillReady env rest (running ++ [{ name := n, attempt := 1 }])
        (inprog ++ [n]) (tr ++ [DispatchEvent.handlerStarted n])
    else (n :: rest, running, inprog, tr)

/-- `fillReady` applied to an `ExecState`. -/
def fillState (env : DispatchEnv) (st : ExecState) : ExecState :=
  let r := fillReady env st.ready_queue st.running st.in_progress st.trace
  { st with
    ready_queue := r.1, running := r.2.1, in_progress := r.2.2.1,
    trace := r.2.2.2 }

/-- Select the `i`-th running task, returning it and the remaining tasks. -/
def pickTask : List RunningTask → Nat → RunningTask × List RunningTask
  | [], _ => ({ name := "", attempt := 1 }, [])
  | t :: rest, 0 => (t, rest)
  | t :: rest, i + 1 =>
    let p := pickTask rest i
    (p.1, t :: p.2)

/-- The outer `while ready_queue or running_tasks` loop. `sched` resolves the
completion order of `asyncio.wait`: at step `k` the task at index
`sched k % running.length` performs its next attempt. The fuel is a model
artifact; exhaustion stops the loop. -/
def execLoop (env : DispatchEnv) (sched : Nat → Nat) :
    Nat → Nat → ExecState → Except (Nat × ExecState) ExecState
  | _, 0, st => Except.ok st
  | k, fuel + 1, st =>
    if st.ready_queue.isEmpty ∧ st.running.isEmpty then Except.ok st
    else
      let st1 := fillState env st
      match st1.running with
      | [] => execLoop env sched (k + 1) fuel st1
      | _ :: _ =>
        let p := pickTask st1.running (sched k % st1.running.length)
        match runAttempt env { st1 with running := p.2 } p.1 with
        | Except.error es => Except.error es
        | Except.ok st3 => execLoop env sched (k + 1) fuel st3

/-- The fresh state built by `dispatch` lines 53-55 and the seeding of the
ready queue (line 77-79). -/
def initState (env : DispatchEnv) : ExecState :=
  { mstate :=
      { message_id := env.message_id,
        handler_states := env.handlers.map (fun s => (s.name, {})),
        results := [], overall_status := "processing" },
    ready_queue :=
      (env.handlers.filter (fun s => s.depends_on.isEmpty)).map (fun s => s.name),
    in_progress := [], completed := [], failed := [], running := [], trace := [] }

/-- `EventDispatcher._evaluate_final_success`. -/
def evaluate_final_success (handlers : List HandlerSpec)
    (completed failed : List String) : Bool :=
  handlers.all fun spec =>
    !(spec.failure_policy == FailurePolicy.ABORT && failed.contains spec.name)

/-- The outcome of `dispatch`: the returned boolean and the message state and
graph state at the end. -/
structure DispatchResult where
  success : Bool
  final : ExecState
deriving DecidableEq, Repr

/-- `EventDispatcher.dispatch` for the handler map registered for the
message's event type. An exception raised by `init_message` (line 56, outside
the `try`) propagates to the caller (`Except.error`); an exception escaping
`_execute_handler_graph` is caught, sets `overall_status = "error"` and
returns `False`. -/
def EventDispatcher.dispatch (env : DispatchEnv) (sched : Nat → Nat)
    (fuel : Nat) : Except Nat DispatchResult :=
  if env.handlers.isEmpty then
    Except.ok { success := true, final := initState env }
  else
    match env.store.init_error with
    | some e => Except.error e
    | none =>
      match execLoop env sched 0 fuel (initState env) with
      | Except.ok st =>
        let s := evaluate_final_success env.handlers st.completed st.failed
        Except.ok { success := s,
                    final := { st with
                      mstate := { st.mstate with
                        overall_status := if s then "completed" else "failed" } } }
      | Except.error est =>
        Except.ok { success := false,
                    final := { est.2 with
                      mstate := { est.2.mstate with
                        overall_status := "error" } } }

/-! ## Concrete dispatch scenarios used by the claims -/

/-- The event of the end-to-end scenarios. -/
def checkoutEvent : Event := { type? := some "checkout:complete", data := 0 }

/-- Scenario S3 handler: `charge` fails with a transient error on attempt 1
and succeeds with value 2 on attempt 2. -/
def chargeSpec : HandlerSpec :=
  { name := "charge",
    handler := fun ctx =>
      if ctx.attempt = 1 then HandlerOutcome.exn 1 else HandlerOutcome.ok 2,
    depends_on := [],
    retry_policy := ExponentialRetryPolicy 3,
    failure_policy := FailurePolicy.ABORT }

/-- Scenario S3 dispatched with the `SQSEventQueue` wrapper as the queue. -/
def s3env : DispatchEnv :=
  { handlers := [chargeSpec], event := checkoutEvent, message_id := "m1",
    receipt_handle := "r1", queue := some SQSEventQueue }

/-- The S3 dispatch result. -/
def s3result : DispatchResult :=
  match EventDispatcher.dispatch s3env (fun _ => 0) 50 with
  | Except.ok r => r
  | Except.error _ => { success := false, final := initState s3env }

/-- Names of handlers whose callable was invoked at least once in a trace. -/
def startedNames (tr : List DispatchEvent) : List String :=
  tr.filterMap fun e =>
    match e with
    | DispatchEvent.attemptStarted n _ => some n
    | _ => none

/-- Count of visibility extensions that reached the queue object's method
body (and hence the SQS client). -/
def reachedQueueCount (tr : List DispatchEvent) : Nat :=
  tr.countP fun e =>
    match e with
    | DispatchEvent.visibilityReachedQueue _ _ => true
    | _ => false

/-- Count of visibility-extension invocations the dispatcher attempted. -/
def attemptedVisCount (tr : List DispatchEvent) : Nat :=
  tr.countP fun e =>
    match e with
    | DispatchEvent.visibilityCallAttempted _ _ _ => true
    | _ => false

/-- C6: in scenario S3 (one failed attempt, then success on attempt 2, queue
`SQSEventQueue` supplied), the retry loop attempts the visibility extension
exactly once, but the call `queue.change_message_visibility(receipt_handle,
visibility_seconds=30)` raises `TypeError` — `SQSEventQueue` (and the
abstract `EventQueue` base) name the parameter `visibility_timeout` — which
the surrounding `except` swallows, so no extension ever reaches the queue:
the invocation is never successful, contradicting the claim. -/
theorem C6_visibility_kwarg_mismatch :
    EventDispatcher.dispatch s3env (fun _ => 0) 50 = Except.ok s3result ∧
    (hstateOf s3result.final.mstate "charge").attempts = 2 ∧
    statusOf s3result.final.mstate "charge" = HandlerStatus.SUCCEEDED ∧
    attemptedVisCount s3result.final.trace = 1 ∧
    reachedQueueCount s3result.final.trace = 0 ∧
    SQSEventQueue.has_change_message_visibility = true := by
  decide

/-- A handler that always succeeds with value 1. -/
def okSpec : HandlerSpec :=
  { name := "a", handler := fun _ => HandlerOutcome.ok 1, depends_on := [],
    retry_policy := NoRetryPolicy, failure_policy := FailurePolicy.ABORT }

/-- A handler that always fails, with `continue` failure policy. -/
def failContinueSpec : HandlerSpec :=
  { name := "a", handler := fun _ => HandlerOutcome.exn 3, depends_on := [],
    retry_policy := NoRetryPolicy, failure_policy := FailurePolicy.CONTINUE }

/-- One succeeding handler, non-failing state store. -/
def c3envOk : DispatchEnv :=
  { handlers := [okSpec], event := checkoutEvent, message_id := "m1",
    receipt_handle := "r1" }

/-- Same dispatch, `init_message` raises. -/
def c3envInit : DispatchEnv :=
  { c3envOk with store := { init_error := some 7 } }

/-- Same dispatch, `save_handler_result` raises. -/
def c3envSave : DispatchEnv :=
  { c3envOk with store := { save_error := fun _ => some 8 } }

/-- One failing `continue`-policy handler, non-failing state store. -/
def c3envContOk : DispatchEnv :=
  { c3envOk with handlers := [failContinueSpec] }

/-- Same dispatch, `mark_handler_failed` raises. -/
def c3envMark : DispatchEnv :=
  { c3envContOk with store := { mark_failed_error := fun _ => some 9 } }

/-- The boolean `dispatch` returns, or `none` when it raises. -/
def successOf (x : Except Nat DispatchResult) : Option Bool :=
  match x with
  | Except.ok r => some r.success
  | Except.error _ => none

/-- The `overall_status` at the end, or `none` when `dispatch` raises. -/
def overallOf (x : Except Nat DispatchResult) : Option String :=
  match x with
  | Except.ok r => some r.final.mstate.overall_status
  | Except.error _ => none

/-- C3 counterexample: a raising state store both escapes `dispatch`
(`init_message` is called outside the `try`, so its exception propagates)
and changes the returned boolean (with a non-failing store the single
succeeding handler gives `True`; with `save_handler_result` raising, the
same dispatch returns `False`). -/
theorem C3_counterexample :
    EventDispatcher.dispatch c3envInit (fun _ => 0) 20 = Except.error 7 ∧
    successOf (EventDispatcher.dispatch c3envOk (fun _ => 0) 20) = some true ∧
    successOf (EventDispatcher.dispatch c3envSave (fun _ => 0) 20) = some false := by
  decide

/-- C3 amended: state-store errors are not isolated. An `init_message`
exception always propagates out of `dispatch` (for a nonempty handler map);
a `save_handler_result` exception is caught by the completion handler and
records the succeeded handler as failed, flipping the dispatch outcome; a
`mark_handler_failed` exception escapes the handler task, aborts graph
execution with `overall_status = "error"`, and flips the outcome of a
dispatch that would otherwise succeed. -/
theorem C3_amended_state_store_errors_not_isolated :
    (∀ (env : DispatchEnv) (sched : Nat → Nat) (fuel : Nat) (e : Nat),
      env.handlers.isEmpty = false → env.store.init_error = some e →
      EventDispatcher.dispatch env sched fuel = Except.error e) ∧
    (successOf (EventDispatcher.dispatch c3envOk (fun _ => 0) 20) = some true ∧
     successOf (EventDispatcher.dispatch c3envSave (fun _ => 0) 20) = some false ∧
     statusOf s3result.final.mstate "charge" = HandlerStatus.SUCCEEDED) ∧
    (successOf (EventDispatcher.dispatch c3envContOk (fun _ => 0) 20) = some true ∧
     successOf (EventDispatcher.dispatch c3envMark (fun _ => 0) 20) = some false ∧
     overallOf (EventDispatcher.dispatch c3envMark (fun _ => 0) 20) = some "error") := by
  refine ⟨fun env sched fuel e hne hinit => ?_, by decide, by decide⟩
  unfold EventDispatcher.dispatch
  rw [if_neg (by simp [hne]), hinit]

/-- C3 amended witness. -/
theorem C3_amended_witness :
    EventDispatcher.dispatch c3envInit (fun k => k) 20 = Except.error 7 := by
  exact (C3_amended_state_store_errors_not_isolated).1 c3envInit (fun k => k) 20 7
    (by decide) (by decide)

/-! ## C2: abort propagation -/

/-- The C2 mixed-policy graph: `x` fails (policy `abort`), `w` succeeds,
`z` depends on `w` and fails (policy `continue`), `y` depends on `x` and
`z`. -/
def c2handlers : List HandlerSpec :=
  [{ name := "x", handler := fun _ => HandlerOutcome.exn 9, depends_on := [],
     retry_policy := NoRetryPolicy, failure_policy := FailurePolicy.ABORT },
   { name := "w", handler := fun _ => HandlerOutcome.ok 1, depends_on := [],
     retry_policy := NoRetryPolicy, failure_policy := FailurePolicy.ABORT },
   { name := "z", handler := fun _ => HandlerOutcome.exn 9, depends_on := ["w"],
     retry_policy := NoRetryPolicy, failure_policy := FailurePolicy.CONTINUE },
   { name := "y", handler := fun _ => HandlerOutcome.ok 2, depends_on := ["x", "z"],
     retry_policy := NoRetryPolicy, failure_policy := FailurePolicy.ABORT }]

/-- The C2 dispatch: sequential completion order (`concurrency_limit = 1`),
so `x` fails first, then `w` succeeds, then `z` fails. -/
def c2env : DispatchEnv :=
  { handlers := c2handlers, event := checkoutEvent, message_id := "m1",
    receipt_handle := "r1", concurrency_limit := 1 }

/-- The C2 dispatch result. -/
def c2result : DispatchResult :=
  match EventDispatcher.dispatch c2env (fun _ => 0) 60 with
  | Except.ok r => r
  | Except.error _ => { success := false, final := initState c2env }

/-- C2 counterexample: in the mixed-policy graph, `x` fails with policy
`abort` and `y` is a direct (hence transitive) dependent of `x`, yet `y`'s
callable is invoked and `y` ends the dispatch `SUCCEEDED`, not `SKIPPED`:
when `z` later fails under policy `continue`, `_schedule_ready_dependents`
consults only the completion sets and the finishing handler's policy, not
the `SKIPPED` status that `_mark_dependents_skipped` wrote. -/
theorem C2_counterexample :
    EventDispatcher.dispatch c2env (fun _ => 0) 60 = Except.ok c2result ∧
    "x" ∈ dependsOn c2handlers "y" ∧
    (c2handlers.find? (fun s => s.name = "x")).map (fun s => s.failure_policy) =
      some FailurePolicy.ABORT ∧
    statusOf c2result.final.mstate "x" = HandlerStatus.FAILED ∧
    "y" ∈ startedNames c2result.final.trace ∧
    statusOf c2result.final.mstate "y" = HandlerStatus.SUCCEEDED := by
  decide

/-! ## C8: SQSConsumer.nack -/

/-- C8: `nack` with `requeue=True` and a configured (non-empty) DLQ issues
exactly the send of the message to the DLQ followed by the delete of the
message from the source queue; with `requeue=False` or no DLQ configured it
issues exactly the visibility reset to 0. -/
theorem C8_nack_dlq_or_visibility_reset (cfg : SQSConsumerConfig) (m : Message)
    (requeue : Bool) :
    (∀ dlq, requeue = true → cfg.dlq_uri = some dlq → dlq.isEmpty = false →
      SQSConsumer.nack cfg m requeue =
        [SqsClientCall.send_message dlq m
            ((lookupA m.metadata "MessageGroupId").getD "default")
            ((lookupA m.metadata "MessageDeduplicationId").getD m.id),
         SqsClientCall.delete_message cfg.endpoint m.ack_handle]) ∧
    (requeue = false ∨ cfg.dlq_uri = none →
      SQSConsumer.nack cfg m requeue =
        [SqsClientCall.change_visibility cfg.endpoint m.ack_handle 0]) := by
  constructor
  · intro dlq hr hdlq hne
    subst hr
    simp [SQSConsumer.nack, SQSConsumer.ack, optStrTruthy, hdlq, hne]
  · intro h
    rcases h with h | h
    · subst h; simp [SQSConsumer.nack]
    · simp [SQSConsumer.nack, optStrTruthy, h]

/-- C8 witness: both branches at concrete configs and message. -/
theorem C8_witness :
    SQSConsumer.nack
        { endpoint := "https://sqs.us-east-1.amazonaws.com/1/q",
          dlq_uri := some "https://sqs.us-east-1.amazonaws.com/1/dlq" }
        { id := "m1", body := "b", ack_handle := some "rh" } true =
      [SqsClientCall.send_message "https://sqs.us-east-1.amazonaws.com/1/dlq"
          { id := "m1", body := "b", ack_handle := some "rh" } "default" "m1",
       SqsClientCall.delete_message "https://sqs.us-east-1.amazonaws.com/1/q"
          (some "rh")] ∧
    SQSConsumer.nack
        { endpoint := "https://sqs.us-east-1.amazonaws.com/1/q" }
        { id := "m1", body := "b", ack_handle := some "rh" } true =
      [SqsClientCall.change_visibility "https://sqs.us-east-1.amazonaws.com/1/q"
          (some "rh") 0] := by
  constructor
  · exact ((C8_nack_dlq_or_visibility_reset _ _ true).1
      "https://sqs.us-east-1.amazonaws.com/1/dlq" rfl rfl (by decide)).trans
      (by decide)
  · exact ((C8_nack_dlq_or_visibility_reset _ _ true).2 (Or.inr rfl)).trans
      (by decide)

/-! ## C9: pull-consumer configuration validation -/

/-- A config accepted by validation whose long-poll wait time is not below
its visibility timeout. -/
def c9badConfig : SQSConsumerConfig :=
  { visibility_timeout := 0, wait_time_seconds := 20 }

/-- C9 counterexample: `SQSConsumerConfig` validation accepts
`visibility_timeout = 0, wait_time_seconds = 20`, violating
`visibility_timeout > wait_time` — no cross-field check exists. -/
theorem C9_counterexample :
    SQSConsumerConfig.fieldConstraintsHold c9badConfig = true ∧
    ¬ c9badConfig.wait_time_seconds < c9badConfig.visibility_timeout := by
  constructor
  · norm_num [SQSConsumerConfig.fieldConstraintsHold, c9badConfig]
  · decide

/-- C9 amended: validation of `SQSConsumerConfig` checks exactly the
per-field bounds (`visibility_timeout ≥ 0`, `1 ≤ max_number_of_messages ≤
10`, `0 ≤ wait_time_seconds ≤ 20`, `poll_interval ≥ 0`,
`max_concurrent_messages ≥ 1`, `max_retries ≥ 0`); no relation between
`visibility_timeout` and `wait_time_seconds` is enforced, and the default
configuration happens to satisfy `visibility_timeout > wait_time` (30 > 20). -/
theorem C9_fieldwise_validation :
    (∀ c : SQSConsumerConfig, c.fieldConstraintsHold = true ↔
      (0 ≤ c.visibility_timeout ∧ 1 ≤ c.max_number_of_messages ∧
       c.max_number_of_messages ≤ 10 ∧ 0 ≤ c.wait_time_seconds ∧
       c.wait_time_seconds ≤ 20 ∧ 0 ≤ c.poll_interval ∧
       1 ≤ c.max_concurrent_messages ∧ 0 ≤ c.max_retries)) ∧
    ({} : SQSConsumerConfig).fieldConstraintsHold = true ∧
    ({} : SQSConsumerConfig).wait_time_seconds <
      ({} : SQSConsumerConfig).visibility_timeout := by
  refine ⟨fun c => ?_,
    by norm_num [SQSConsumerConfig.fieldConstraintsHold], by decide⟩
  simp [SQSConsumerConfig.fieldConstraintsHold, and_assoc]

/-- C9 amended witness. -/
theorem C9_fieldwise_validation_witness :
    ({} : SQSConsumerConfig).fieldConstraintsHold = true := by
  exact (C9_fieldwise_validation.1 {}).mpr (by norm_num)

/-! ## C4: registration atomicity of `EventRouter.route` -/

theorem lookupA_append {α : Type} (l1 l2 : List (String × α)) (k : String) :
    lookupA (l1 ++ l2) k =
      match lookupA l1 k with
      | some v => some v
      | none => lookupA l2 k := by
  induction l1 with
  | nil => simp [lookupA]
  | cons a t ih =>
    by_cases h : a.1 = k
    · simp [lookupA, List.find?, h]
    · simpa [lookupA, List.find?, h] using ih

theorem lookupA_setA_self {α : Type} (l : List (String × α)) (k : String) (v : α) :
    lookupA (setA l k v) k = some v := by
  induction l with
  | nil => simp [setA, lookupA, List.find?]
  | cons a t ih =>
    by_cases h : a.1 = k
    · simp [setA, h, lookupA, List.find?]
    · simpa [setA, h, lookupA, List.find?] using ih

theorem lookupA_cons {α : Type} (a : String × α) (t : List (String × α))
    (k : String) :
    lookupA (a :: t) k = if a.1 = k then some a.2 else lookupA t k := by
  by_cases h : a.1 = k <;> simp [lookupA, List.find?, h]

theorem lookupA_setA_ne {α : Type} (l : List (String × α)) (k k2 : String) (v : α)
    (h : k2 ≠ k) : lookupA (setA l k v) k2 = lookupA l k2 := by
  induction l with
  | nil =>
    show lookupA [(k, v)] k2 = lookupA [] k2
    rw [lookupA_cons]
    simp [lookupA, Ne.symm h]
  | cons a t ih =>
    obtain ⟨k1, v1⟩ := a
    show lookupA (if k1 = k then (k, v) :: t else (k1, v1) :: setA t k v) k2 = _
    by_cases ha : k1 = k
    · rw [if_pos ha, lookupA_cons, lookupA_cons]
      rw [if_neg (fun hh : k = k2 => h hh.symm)]
      rw [if_neg (fun hh : k1 = k2 => h (hh.symm.trans ha))]
    · rw [if_neg ha, lookupA_cons, lookupA_cons, ih]

theorem setA_lookup_eq {α : Type} (l : List (String × α)) (k : String) (v : α)
    (h : lookupA l k = some v) : setA l k v = l := by
  induction l with
  | nil => simp [lookupA] at h
  | cons a t ih =>
    obtain ⟨k1, v1⟩ := a
    rw [lookupA_cons] at h
    show (if k1 = k then (k, v) :: t else (k1, v1) :: setA t k v) = (k1, v1) :: t
    by_cases ha : k1 = k
    · rw [if_pos ha] at h ⊢
      simp only [if_pos] at h
      obtain rfl : v1 = v := by simpa using h
      rw [← ha]
    · rw [if_neg ha] at h ⊢
      rw [ih h]

theorem eraseSpec_append (m : List HandlerSpec) (s : HandlerSpec)
    (h : s.name ∉ specNames m) : eraseSpec (m ++ [s]) s.name = m := by
  induction m with
  | nil => simp [eraseSpec]
  | cons a t ih =>
    simp [specNames] at h
    push_neg at h
    have ht : s.name ∉ specNames t := by
      simp only [specNames, List.mem_map]
      rintro ⟨x, hx, hxe⟩
      exact h.2 x hx hxe
    simp only [List.cons_append, eraseSpec]
    rw [if_neg (Ne.symm h.1)]
    exact congrArg (fun x => a :: x) (ih ht)

theorem ensureKey_lookup_self (hs : List (String × List HandlerSpec))
    (et : String) :
    lookupA (ensureKey hs et) et = some ((lookupA hs et).getD []) := by
  unfold ensureKey
  split
  · rename_i h
    cases hl : lookupA hs et with
    | some v => simp [hl]
    | none => rw [hl] at h; simp at h
  · rename_i h
    cases hl : lookupA hs et with
    | some v => rw [hl] at h; simp at h
    | none =>
      rw [lookupA_append, hl]
      simp [lookupA, List.find?]

theorem ensureKey_handlers_for (hs : List (String × List HandlerSpec))
    (et et2 : String) :
    (lookupA (ensureKey hs et) et2).getD [] = (lookupA hs et2).getD [] := by
  by_cases h : et2 = et
  · subst h
    rw [ensureKey_lookup_self]
    rfl
  · unfold ensureKey
    split
    · rfl
    · rw [lookupA_append]
      cases hl : lookupA hs et2 with
      | some v => simp
      | none => simp [lookupA, List.find?, Ne.symm h]

theorem resolveName_handlers (r : EventRouter) (ident name? : Option String) :
    (resolveName r ident name?).2.handlers = r.handlers := by
  cases name? with
  | some n => rfl
  | none =>
    cases ident with
    | some s => rfl
    | none => rfl

theorem routeInsert_error_unchanged (r1 : EventRouter) (et : String)
    (spec : HandlerSpec) (e : RouteError)
    (h : (routeInsert r1 et spec).1 = Except.error e) :
    ∀ et2, (routeInsert r1 et spec).2.handlers_for et2 = r1.handlers_for et2 := by
  intro et2
  unfold routeInsert at h ⊢
  split at h
  · rename_i hdup
    rw [if_pos hdup]
    simp only [EventRouter.handlers_for]
    exact ensureKey_handlers_for r1.handlers et et2
  · rename_i hdup
    split at h
    · rename_i e1 hval
      rw [if_neg hdup]
      simp only [EventRouter.handlers_for]
      show (lookupA (setA (ensureKey r1.handlers et) et
          (eraseSpec (((lookupA (ensureKey r1.handlers et) et).getD []) ++ [spec])
            spec.name)) et2).getD [] = (lookupA r1.handlers et2).getD []
      rw [eraseSpec_append _ _ hdup]
      have hm : lookupA (ensureKey r1.handlers et) et =
          some ((lookupA (ensureKey r1.handlers et) et).getD []) := by
        rw [ensureKey_lookup_self]
        rfl
      rw [setA_lookup_eq _ _ _ hm]
      exact ensureKey_handlers_for r1.handlers et et2
    · simp at h

theorem routeInsert_ok_validated (r1 : EventRouter) (et : String)
    (spec : HandlerSpec) (h2 : HandlerContext → HandlerOutcome)
    (h : (routeInsert r1 et spec).1 = Except.ok h2) :
    h2 = spec.handler ∧
    GraphValidator.validate ((routeInsert r1 et spec).2.handlers_for et) =
      Except.ok () := by
  unfold routeInsert at h ⊢
  split at h
  · simp at h
  · rename_i hdup
    split at h
    · simp at h
    · rename_i hval
      simp only [Except.ok.injEq] at h
      subst h
      refine ⟨rfl, ?_⟩
      rw [if_neg hdup]
      simp only [EventRouter.handlers_for]
      show GraphValidator.validate ((lookupA (setA (ensureKey r1.handlers et) et
          (((lookupA (ensureKey r1.handlers et) et).getD []) ++ [spec])) et).getD []) =
        Except.ok ()
      rw [lookupA_setA_self]
      exact hval

/-- C4: `route` is atomic for the observable handler maps. If it raises
(duplicate name, unknown dependency, or cycle), `handlers_for` gives the same
map for every event type after the call as before it; if it returns, the
registered map for the event type passes `GraphValidator.validate` and the
returned handler is the original callable. -/
theorem C4_route_atomicity (r : EventRouter) (event_type : String)
    (handler : HandlerContext → HandlerOutcome) (ident name? : Option String)
    (depends_on : Option (List String)) (retry_policy : Option RetryPolicy)
    (failure_policy : Option FailurePolicy) (md : Option (List (String × Nat))) :
    (∀ e, (EventRouter.route r event_type handler ident name? depends_on
        retry_policy failure_policy md).1 = Except.error e →
      ∀ et2, (EventRouter.route r event_type handler ident name? depends_on
        retry_policy failure_policy md).2.handlers_for et2 =
          r.handlers_for et2) ∧
    (∀ h2, (EventRouter.route r event_type handler ident name? depends_on
        retry_policy failure_policy md).1 = Except.ok h2 →
      h2 = handler ∧
      GraphValidator.validate ((EventRouter.route r event_type handler ident
        name? depends_on retry_policy failure_policy md).2.handlers_for
          event_type) = Except.ok ()) := by
  constructor
  · intro e he et2
    have h1 := routeInsert_error_unchanged (resolveName r ident name?).2
      event_type
      { name := (resolveName r ident name?).1, handler := handler,
        depends_on := depends_on.getD [],
        retry_policy := retry_policy.getD (ExponentialRetryPolicy 3),
        failure_policy := failure_policy.getD FailurePolicy.ABORT,
        metadata := md.getD [] } e he et2
    rw [EventRouter.route] at *
    rw [h1]
    simp only [EventRouter.handlers_for, resolveName_handlers]
  · intro h2 hok
    have h1 := routeInsert_ok_validated (resolveName r ident name?).2
      event_type
      { name := (resolveName r ident name?).1, handler := handler,
        depends_on := depends_on.getD [],
        retry_policy := retry_policy.getD (ExponentialRetryPolicy 3),
        failure_policy := failure_policy.getD FailurePolicy.ABORT,
        metadata := md.getD [] } h2 hok
    exact h1

/-- C4 witness: a registration that introduces a cycle is rejected and leaves
every `handlers_for` map unchanged, and an accepted registration validates
and returns the callable. -/
theorem C4_route_atomicity_witness :
    (∀ et2, (EventRouter.route { handlers := [("t", [okSpec])] } "t"
        (fun _ => HandlerOutcome.ok 5) none (some "b") (some ["b"])
        none none none).2.handlers_for et2 =
      EventRouter.handlers_for { handlers := [("t", [okSpec])] } et2) ∧
    GraphValidator.validate ((EventRouter.route { handlers := [] } "t"
        (fun _ => HandlerOutcome.ok 5) none (some "b") none
        none none none).2.handlers_for "t") = Except.ok () := by
  refine ⟨(C4_route_atomicity { handlers := [("t", [okSpec])] } "t"
      (fun _ => HandlerOutcome.ok 5) none (some "b") (some ["b"])
      none none none).1 (RouteError.graph (GraphError.cycleDetected ["b", "b"]))
      rfl, ?_⟩
  exact ((C4_route_atomicity { handlers := [] } "t"
      (fun _ => HandlerOutcome.ok 5) none (some "b") none
      none none none).2 (fun _ => HandlerOutcome.ok 5) rfl).2

/-! ## C5: correctness of `GraphValidator.validate` -/

theorem validateDepsExist_ok_iff (specs : List HandlerSpec)
    (l : List HandlerSpec) :
    validateDepsExist specs l = Except.ok () ↔
      ∀ s ∈ l, ∀ d ∈ s.depends_on, d ∈ specNames specs := by
  induction l with
  | nil => simp [validateDepsExist]
  | cons s rest ih =>
    unfold validateDepsExist
    cases hf : s.depends_on.find? (fun d => d ∉ specNames specs) with
    | some d =>
      simp only [hf]
      constructor
      · intro h
        simp at h
      · intro h
        have hd := List.find?_some hf
        have hmem := List.mem_of_find?_eq_some hf
        simp at hd
        exact absurd (h s (by simp) d hmem) hd
    | none =>
      simp only [hf]
      rw [ih]
      constructor
      · intro h
        intro s1 hs1 d hd
        rcases List.mem_cons.mp hs1 with rfl | hs1
        · by_contra hnot
          have := List.find?_eq_none.mp hf d hd
          simp at this
          exact hnot this
        · exact h s1 hs1 d hd
      · intro h s1 hs1 d hd
        exact h s1 (List.mem_cons_of_mem _ hs1) d hd

theorem validateDepsExist_error (specs : List HandlerSpec)
    (l : List HandlerSpec) (e : GraphError)
    (h : validateDepsExist specs l = Except.error e) :
    ∃ n d, e = GraphError.depReg n d ∧
      (∃ s ∈ l, s.name = n ∧ d ∈ s.depends_on) ∧ d ∉ specNames specs := by
  induction l with
  | nil => simp [validateDepsExist] at h
  | cons s rest ih =>
    unfold validateDepsExist at h
    cases hf : s.depends_on.find? (fun d => d ∉ specNames specs) with
    | some d =>
      rw [hf] at h
      simp only [Except.error.injEq] at h
      subst h
      refine ⟨s.name, d, rfl, ⟨s, by simp, rfl, List.mem_of_find?_eq_some hf⟩, ?_⟩
      have hd := List.find?_some hf
      simpa using hd
    | none =>
      rw [hf] at h
      obtain ⟨n, d, he, ⟨s1, hs1, hn, hd⟩, hnot⟩ := ih h
      exact ⟨n, d, he, ⟨s1, List.mem_cons_of_mem _ hs1, hn, hd⟩, hnot⟩

/-- First position of an element in a list (length if absent). -/
def posIn : List String → String → Nat
  | [], _ => 0
  | x :: t, a => if x = a then 0 else posIn t a + 1

theorem posIn_append_of_mem (l l2 : List String) (a : String) (h : a ∈ l) :
    posIn (l ++ l2) a = posIn l a := by
  induction l with
  | nil => simp at h
  | cons x t ih =>
    by_cases hx : x = a
    · simp [posIn, hx]
    · rcases List.mem_cons.mp h with rfl | hm
      · exact absurd rfl hx
      · simp [posIn, hx, ih hm]

theorem posIn_append_of_not_mem (l l2 : List String) (a : String) (h : a ∉ l) :
    posIn (l ++ l2) a = l.length + posIn l2 a := by
  induction l with
  | nil => simp [posIn]
  | cons x t ih =>
    have hx : x ≠ a := fun hh => h (hh ▸ List.mem_cons_self x t)
    have ht : a ∉ t := fun hh => h (List.mem_cons_of_mem _ hh)
    simp [posIn, hx, ih ht]
    omega

theorem posIn_lt_length (l : List String) (a : String) (h : a ∈ l) :
    posIn l a < l.length := by
  induction l with
  | nil => simp at h
  | cons x t ih =>
    by_cases hx : x = a
    · simp [posIn, hx]
    · rcases List.mem_cons.mp h with rfl | hm
      · exact absurd rfl hx
      · simp only [posIn, hx, if_false, List.length_cons]
        exact Nat.succ_lt_succ (ih hm)

theorem chain'_drop {α : Type} {R : α → α → Prop} :
    ∀ (l : List α), List.Chain' R l → ∀ n, List.Chain' R (l.drop n)
  | _, _, 0 => by simpa
  | [], _, _ + 1 => by simp
  | a :: t, h, n + 1 => by
    simpa using chain'_drop t h.tail n

theorem getLast?_drop_of_lt {α : Type} :
    ∀ (l : List α) (n : Nat), n < l.length → (l.drop n).getLast? = l.getLast?
  | [], n, h => by simp at h
  | a :: t, 0, _ => rfl
  | a :: t, n + 1, h => by
    have ht : n < t.length := by simpa using h
    have := getLast?_drop_of_lt t n ht
    rw [List.drop_succ_cons, this]
    cases t with
    | nil => simp at ht
    | cons b t2 => simp [List.getLast?_cons_cons]

theorem getLast?_mem_self {α : Type} (l : List α) (x : α)
    (h : l.getLast? = some x) : x ∈ l := by
  have hx : x ∈ l.getLast? := by rw [h]; rfl
  obtain ⟨hne, heq⟩ := List.mem_getLast?_eq_getLast hx
  rw [heq]
  exact List.getLast_mem hne

theorem chain_to_depWalk (specs : List HandlerSpec) :
    ∀ (l : List String) (a b : String),
      List.Chain (depEdge specs) a l → l.getLast? = some b → DepWalk specs a b := by
  intro l
  induction l with
  | nil => intro a b _ hl; simp at hl
  | cons c t ih =>
    intro a b hch hl
    rcases hch with _ | ⟨hedge, hch⟩
    cases t with
    | nil =>
      simp at hl
      subst hl
      exact DepWalk.single hedge
    | cons c2 t2 =>
      have hl2 : (c2 :: t2).getLast? = some b := by
        rw [← hl]
        simp [List.getLast?_cons_cons]
      exact DepWalk.cons hedge (ih c b hch hl2)

theorem isDepCycle_hasCycle (specs : List HandlerSpec) (c : List String)
    (h : IsDepCycle specs c) : HasCycle specs := by
  obtain ⟨hlen, hhead, hchain⟩ := h
  cases c with
  | nil => simp at hlen
  | cons a t =>
    cases t with
    | nil => simp at hlen
    | cons b t2 =>
      refine ⟨a, ?_⟩
      have hch : List.Chain (depEdge specs) a (b :: t2) := hchain
      have hl : (b :: t2).getLast? = some a := by
        have : (a :: b :: t2).getLast? = some a := by
          simp only [List.head?_cons, Option.some.injEq] at hhead
          exact hhead.symm ▸ rfl
        rw [List.getLast?_cons_cons] at this
        exact this
      exact chain_to_depWalk specs (b :: t2) a a hch hl

theorem dfs_cycle_sound (specs : List HandlerSpec) : ∀ fuel : Nat,
    (∀ black path node c,
      List.Chain' (depEdge specs) path →
      (∀ x ∈ path, x ∈ specNames specs) →
      (∀ last, path.getLast? = some last → node ∈ dependsOn specs last) →
      dfsVisit specs fuel black path node =
        DfsResult.err (GraphError.cycleDetected c) →
      IsDepCycle specs c) ∧
    (∀ black path deps node c,
      List.Chain' (depEdge specs) path →
      (∀ x ∈ path, x ∈ specNames specs) →
      path.getLast? = some node →
      (∀ d ∈ deps, d ∈ dependsOn specs node) →
      dfsList specs fuel black path deps node =
        DfsResult.err (GraphError.cycleDetected c) →
      IsDepCycle specs c) := by
  intro fuel
  induction fuel with
  | zero =>
    constructor
    · intro black path node c _ _ _ h
      simp [dfsVisit] at h
    · intro black path deps node c _ _ _ _ h
      simp [dfsList] at h
  | succ fuel ih =>
    obtain ⟨ihV, ihL⟩ := ih
    constructor
    · intro black path node c hchain hsub hlast h
      unfold dfsVisit at h
      split at h
      · simp at h
      · rename_i hname
        split at h
        · rename_i hmem
          simp only [DfsResult.err.injEq, GraphError.cycleDetected.injEq] at h
          subst h
          have hpos := List.indexOf_lt_length.mpr hmem
          have hne : path ≠ [] := by
            intro hp
            rw [hp] at hmem
            simp at hmem
          obtain ⟨last, hlastEq⟩ : ∃ last, path.getLast? = some last := by
            cases hp : path.getLast? with
            | some x => exact ⟨x, rfl⟩
            | none => exact absurd (List.getLast?_eq_none_iff.mp hp) hne
          have hlastNames : last ∈ specNames specs :=
            hsub last (getLast?_mem_self path last hlastEq)
          have hedge : depEdge specs last node := ⟨hlastNames, hlast last hlastEq⟩
          have hdropLen : (path.drop (path.indexOf node)).length =
              path.length - path.indexOf node := by simp
          have hdropNe : path.drop (path.indexOf node) ≠ [] := by
            intro hd
            have := congrArg List.length hd
            rw [hdropLen] at this
            simp at this
            omega
          refine ⟨?_, ?_, ?_⟩
          · rw [List.length_append, hdropLen]
            simp
            omega
          · have hhead : (path.drop (path.indexOf node)).head? = some node := by
              rw [List.drop_eq_getElem_cons hpos]
              simp [List.getElem_indexOf]
            rw [List.head?_append_of_ne_nil _ hdropNe]
            rw [hhead, List.getLast?_concat]
          · rw [List.chain'_append]
            refine ⟨chain'_drop path hchain _, List.chain'_singleton node, ?_⟩
            intro x hx y hy
            simp at hy
            subst hy
            rw [getLast?_drop_of_lt path _ hpos, hlastEq] at hx
            simp at hx
            subst hx
            exact hedge
        · split at h
          · simp at h
          · rename_i hblack hwhite
            push_neg at hname
            have hchain2 : List.Chain' (depEdge specs) (path ++ [node]) := by
              rw [List.chain'_append]
              refine ⟨hchain, List.chain'_singleton node, ?_⟩
              intro x hx y hy
              simp at hy
              subst hy
              exact ⟨hsub x (getLast?_mem_self path x hx), hlast x hx⟩
            have hsub2 : ∀ x ∈ path ++ [node], x ∈ specNames specs := by
              intro x hx
              rcases List.mem_append.mp hx with hx | hx
              · exact hsub x hx
              · simp at hx
                subst hx
                exact hname
            exact ihL black (path ++ [node]) (dependsOn specs node) node c
              hchain2 hsub2 (by simp) (fun d hd => hd) h
    · intro black path deps node c hchain hsub hlastEq hdeps h
      cases deps with
      | nil => simp [dfsList] at h
      | cons d rest =>
        unfold dfsList at h
        cases hv : dfsVisit specs fuel black path d with
        | ok black1 =>
          rw [hv] at h
          exact ihL black1 path rest node c hchain hsub hlastEq
            (fun d2 hd2 => hdeps d2 (List.mem_cons_of_mem _ hd2)) h
        | err e =>
          rw [hv] at h
          simp only [DfsResult.err.injEq] at h
          subst h
          exact ihV black path d c hchain hsub
            (fun last hl => by
              rw [hlastEq] at hl
              simp at hl
              subst hl
              exact hdeps d (List.mem_cons_self d rest)) hv
        | fail =>
          rw [hv] at h
          simp at h

theorem dfs_black_extends (specs : List HandlerSpec) : ∀ fuel : Nat,
    (∀ black path node black1,
      dfsVisit specs fuel black path node = DfsResult.ok black1 →
      ∃ tail, black1 = black ++ tail ∧ ∀ x ∈ tail, x ∉ path) ∧
    (∀ black path deps node black1,
      dfsList specs fuel black path deps node = DfsResult.ok black1 →
      ∃ tail, black1 = black ++ tail ∧ ∀ x ∈ tail, x ∉ path ∨ x = node) := by
  intro fuel
  induction fuel with
  | zero =>
    constructor
    · intro black path node black1 h
      simp [dfsVisit] at h
    · intro black path deps node black1 h
      simp [dfsList] at h
  | succ fuel ih =>
    obtain ⟨ihV, ihL⟩ := ih
    constructor
    · intro black path node black1 h
      unfold dfsVisit at h
      split at h
      · simp at h
      · rename_i hname
        split at h
        · simp at h
        · split at h
          · rename_i hblack
            simp only [DfsResult.ok.injEq] at h
            subst h
            exact ⟨[], by simp⟩
          · rename_i hpath hblack
            obtain ⟨tail, htail, hnp⟩ := ihL black (path ++ [node])
              (dependsOn specs node) node black1 h
            refine ⟨tail, htail, fun x hx => ?_⟩
            rcases hnp x hx with hnp1 | rfl
            · intro hxp
              exact hnp1 (List.mem_append.mpr (Or.inl hxp))
            · exact hpath
    · intro black path deps node black1 h
      cases deps with
      | nil =>
        unfold dfsList at h
        simp only [DfsResult.ok.injEq] at h
        subst h
        exact ⟨[node], rfl, fun x hx => by simp at hx; exact Or.inr hx⟩
      | cons d rest =>
        unfold dfsList at h
        cases hv : dfsVisit specs fuel black path d with
        | ok blackD =>
          rw [hv] at h
          obtain ⟨tailD, htailD, hnpD⟩ := ihV black path d blackD hv
          obtain ⟨tailR, htailR, hnpR⟩ := ihL blackD path rest node black1 h
          refine ⟨tailD ++ tailR, by rw [htailR, htailD, List.append_assoc], ?_⟩
          intro x hx
          rcases List.mem_append.mp hx with hx | hx
          · exact Or.inl (hnpD x hx)
          · exact hnpR x hx
        | err e => rw [hv] at h; simp at h
        | fail => rw [hv] at h; simp at h

/-- Sum of `|depends_on| + 2` over the handlers not yet BLACK or GRAY: the
potential bounding the remaining DFS call-tree depth. -/
def dfsW (specs : List HandlerSpec) (black path : List String) : Nat :=
  ((specs.filter (fun s => decide (s.name ∉ black ∧ s.name ∉ path))).map
    (fun s => s.depends_on.length + 2)).sum

theorem sublist_sum_le : ∀ (l1 l2 : List Nat), l1.Sublist l2 → l1.sum ≤ l2.sum := by
  intro l1 l2 h
  induction h with
  | slnil => exact Nat.le_refl 0
  | cons a _ ih => simpa using Nat.le_trans ih (by simp)
  | cons₂ a _ ih => simpa using ih

theorem dfsW_le_total (specs : List HandlerSpec) (black path : List String) :
    dfsW specs black path ≤
      (specs.map (fun s => s.depends_on.length + 2)).sum := by
  exact sublist_sum_le _ _ ((List.filter_sublist specs).map _)

theorem dfsW_mono_black (specs : List HandlerSpec) (black black2 path : List String)
    (h : ∀ x ∈ black, x ∈ black2) :
    dfsW specs black2 path ≤ dfsW specs black path := by
  refine sublist_sum_le _ _ (List.Sublist.map _ (List.monotone_filter_right _ ?_))
  intro s hs
  simp only [decide_eq_true_eq] at hs ⊢
  exact ⟨fun hb => hs.1 (h _ hb), hs.2⟩

theorem dfsW_filter_eq_of_not_mem (specs : List HandlerSpec)
    (black path : List String) (node : String)
    (h : node ∉ specNames specs) :
    dfsW specs black (path ++ [node]) = dfsW specs black path := by
  unfold dfsW
  congr 1
  apply congrArg
  apply List.filter_congr
  intro s hs
  have hne : s.name ≠ node := by
    intro he
    exact h (he ▸ List.mem_map_of_mem (fun t => t.name) hs)
  simp only [decide_eq_decide, List.mem_append, List.mem_singleton]
  constructor
  · rintro ⟨hb, hp⟩
    exact ⟨hb, fun hh => hp (Or.inl hh)⟩
  · rintro ⟨hb, hp⟩
    exact ⟨hb, fun hh => by
      rcases hh with hh | hh
      · exact hp hh
      · exact hne hh⟩

theorem dfsW_path_split (specs : List HandlerSpec)
    (hnd : (specNames specs).Nodup) (node : String) (black path : List String)
    (hmem : node ∈ specNames specs) (hb : node ∉ black) (hp : node ∉ path) :
    dfsW specs black path =
      dfsW specs black (path ++ [node]) + ((dependsOn specs node).length + 2) := by
  induction specs with
  | nil => simp [specNames] at hmem
  | cons s rest ih =>
    simp only [specNames, List.map_cons, List.nodup_cons] at hnd
    by_cases hsn : s.name = node
    · have hrest : node ∉ specNames rest := by
        rw [← hsn]
        exact hnd.1
      have hdep : dependsOn (s :: rest) node = s.depends_on := by
        unfold dependsOn
        rw [List.find?_cons_of_pos _ (by simp [hsn])]
      unfold dfsW
      rw [List.filter_cons, List.filter_cons]
      rw [if_pos (by simp [hsn, hb, hp]), if_neg (by simp [hsn])]
      simp only [List.map_cons, List.sum_cons]
      have := dfsW_filter_eq_of_not_mem rest black path node hrest
      unfold dfsW at this
      rw [this, hdep]
      omega
    · have hdep : dependsOn (s :: rest) node = dependsOn rest node := by
        unfold dependsOn
        rw [List.find?_cons_of_neg _ (by simp [hsn])]
      have hmem2 : node ∈ specNames rest := by
        rcases List.mem_cons.mp hmem with hh | hh
        · exact absurd hh.symm hsn
        · exact hh
      have hsplit := ih hnd.2 hmem2
      unfold dfsW at hsplit ⊢
      rw [List.filter_cons, List.filter_cons]
      have hcond : (decide (s.name ∉ black ∧ s.name ∉ path ++ [node])) =
          (decide (s.name ∉ black ∧ s.name ∉ path)) := by
        simp only [decide_eq_decide, List.mem_append, List.mem_singleton]
        constructor
        · rintro ⟨h1, h2⟩
          exact ⟨h1, fun hh => h2 (Or.inl hh)⟩
        · rintro ⟨h1, h2⟩
          refine ⟨h1, fun hh => ?_⟩
          rcases hh with hh | hh
          · exact h2 hh
          · exact hsn hh
      rw [hcond, hdep]
      split
      · simp only [List.map_cons, List.sum_cons]
        omega
      · omega

theorem dfs_fuel_sufficient (specs : List HandlerSpec)
    (hnd : (specNames specs).Nodup) : ∀ fuel : Nat,
    (∀ black path node, dfsW specs black path < fuel →
      dfsVisit specs fuel black path node ≠ DfsResult.fail) ∧
    (∀ black path deps node, dfsW specs black path + deps.length + 1 < fuel →
      dfsList specs fuel black path deps node ≠ DfsResult.fail) := by
  intro fuel
  induction fuel with
  | zero =>
    constructor
    · intro black path node h
      omega
    · intro black path deps node h
      omega
  | succ fuel ih =>
    obtain ⟨ihV, ihL⟩ := ih
    constructor
    · intro black path node hW
      unfold dfsVisit
      split
      · simp
      · split
        · simp
        · split
          · simp
          · rename_i hname hpath hblack
            push_neg at hname
            have hsplit := dfsW_path_split specs hnd node black path hname hblack hpath
            apply ihL
            omega
    · intro black path deps node hW
      cases deps with
      | nil => simp [dfsList]
      | cons d rest =>
        unfold dfsList
        cases hv : dfsVisit specs fuel black path d with
        | ok blackD =>
          simp only []
          apply ihL
          obtain ⟨tail, htail, _⟩ := (dfs_black_extends specs fuel).1 _ _ _ _ hv
          have hmono : dfsW specs blackD path ≤ dfsW specs black path := by
            apply dfsW_mono_black
            intro x hx
            rw [htail]
            exact List.mem_append.mpr (Or.inl hx)
          simp only [List.length_cons] at hW
          omega
        | err e => simp
        | fail =>
          exact absurd hv (ihV black path d (by simp at hW; omega))

theorem dfs_err_classify (specs : List HandlerSpec) : ∀ fuel : Nat,
    (∀ black path node e,
      dfsVisit specs fuel black path node = DfsResult.err e →
      (∃ n, e = GraphError.keyError n) ∨ ∃ c, e = GraphError.cycleDetected c) ∧
    (∀ black path deps node e,
      dfsList specs fuel black path deps node = DfsResult.err e →
      (∃ n, e = GraphError.keyError n) ∨ ∃ c, e = GraphError.cycleDetected c) := by
  intro fuel
  induction fuel with
  | zero =>
    constructor
    · intro black path node e h
      simp [dfsVisit] at h
    · intro black path deps node e h
      simp [dfsList] at h
  | succ fuel ih =>
    obtain ⟨ihV, ihL⟩ := ih
    constructor
    · intro black path node e h
      unfold dfsVisit at h
      split at h
      · simp only [DfsResult.err.injEq] at h
        exact Or.inl ⟨_, h.symm⟩
      · split at h
        · simp only [DfsResult.err.injEq] at h
          exact Or.inr ⟨_, h.symm⟩
        · split at h
          · simp at h
          · exact ihL _ _ _ _ _ h
    · intro black path deps node e h
      cases deps with
      | nil => simp [dfsList] at h
      | cons d rest =>
        unfold dfsList at h
        cases hv : dfsVisit specs fuel black path d with
        | ok blackD =>
          rw [hv] at h
          exact ihL _ _ _ _ _ h
        | err e2 =>
          rw [hv] at h
          simp only [DfsResult.err.injEq] at h
          subst h
          exact ihV _ _ _ _ hv
        | fail => rw [hv] at h; simp at h

theorem dfs_no_keyError (specs : List HandlerSpec)
    (hclosed : ∀ n ∈ specNames specs, ∀ d ∈ dependsOn specs n,
      d ∈ specNames specs) : ∀ fuel : Nat,
    (∀ black path node, node ∈ specNames specs → ∀ n,
      dfsVisit specs fuel black path node ≠
        DfsResult.err (GraphError.keyError n)) ∧
    (∀ black path deps node, (∀ d ∈ deps, d ∈ specNames specs) → ∀ n,
      dfsList specs fuel black path deps node ≠
        DfsResult.err (GraphError.keyError n)) := by
  intro fuel
  induction fuel with
  | zero =>
    constructor
    · intro black path node _ n h
      simp [dfsVisit] at h
    · intro black path deps node _ n h
      simp [dfsList] at h
  | succ fuel ih =>
    obtain ⟨ihV, ihL⟩ := ih
    constructor
    · intro black path node hnode n h
      unfold dfsVisit at h
      split at h
      · rename_i hn
        exact hn hnode
      · split at h
        · simp at h
        · split at h
          · simp at h
          · exact ihL _ _ _ _ (fun d hd => hclosed node hnode d hd) n h
    · intro black path deps node hdeps n h
      cases deps with
      | nil => simp [dfsList] at h
      | cons d rest =>
        unfold dfsList at h
        cases hv : dfsVisit specs fuel black path d with
        | ok blackD =>
          rw [hv] at h
          exact ihL _ _ _ _ (fun d2 hd2 => hdeps d2 (List.mem_cons_of_mem _ hd2)) n h
        | err e2 =>
          rw [hv] at h
          simp only [DfsResult.err.injEq] at h
          subst h
          exact ihV _ _ _ (hdeps d (List.mem_cons_self d rest)) n hv
        | fail => rw [hv] at h; simp at h

/-- The completeness invariant on the blackening order: every BLACK handler
is a handler name and all its dependencies were blackened strictly earlier. -/
def BlackInv (specs : List HandlerSpec) (black : List String) : Prop :=
  ∀ b ∈ black, b ∈ specNames specs ∧
    ∀ d ∈ dependsOn specs b, d ∈ black ∧ posIn black d < posIn black b

theorem blackInv_append (specs : List HandlerSpec) (black : List String)
    (node : String) (hInv : BlackInv specs black)
    (hnode : node ∈ specNames specs) (hnotb : node ∉ black)
    (hdeps : ∀ d ∈ dependsOn specs node, d ∈ black) :
    BlackInv specs (black ++ [node]) := by
  intro b hb
  rcases List.mem_append.mp hb with hb | hb
  · obtain ⟨hbn, hd⟩ := hInv b hb
    refine ⟨hbn, fun d hdd => ?_⟩
    obtain ⟨hdm, hdp⟩ := hd d hdd
    refine ⟨List.mem_append.mpr (Or.inl hdm), ?_⟩
    rw [posIn_append_of_mem _ _ _ hdm, posIn_append_of_mem _ _ _ hb]
    exact hdp
  · simp only [List.mem_singleton] at hb
    subst hb
    refine ⟨hnode, fun d hdd => ?_⟩
    have hdm := hdeps d hdd
    refine ⟨List.mem_append.mpr (Or.inl hdm), ?_⟩
    rw [posIn_append_of_mem _ _ _ hdm, posIn_append_of_not_mem _ _ _ hnotb]
    have := posIn_lt_length black d hdm
    simp [posIn]
    omega

theorem dfs_blackInv (specs : List HandlerSpec) : ∀ fuel : Nat,
    (∀ black path node black1,
      BlackInv specs black →
      dfsVisit specs fuel black path node = DfsResult.ok black1 →
      BlackInv specs black1 ∧ node ∈ black1) ∧
    (∀ black path deps node black1,
      BlackInv specs black →
      node ∈ specNames specs → node ∈ path → node ∉ black →
      (∀ d ∈ dependsOn specs node, d ∈ black ∨ d ∈ deps) →
      dfsList specs fuel black path deps node = DfsResult.ok black1 →
      BlackInv specs black1 ∧ node ∈ black1) := by
  intro fuel
  induction fuel with
  | zero =>
    constructor
    · intro black path node black1 _ h
      simp [dfsVisit] at h
    · intro black path deps node black1 _ _ _ _ _ h
      simp [dfsList] at h
  | succ fuel ih =>
    obtain ⟨ihV, ihL⟩ := ih
    constructor
    · intro black path node black1 hInv h
      unfold dfsVisit at h
      split at h
      · simp at h
      · rename_i hname
        push_neg at hname
        split at h
        · simp at h
        · split at h
          · rename_i hblack
            simp only [DfsResult.ok.injEq] at h
            subst h
            exact ⟨hInv, hblack⟩
          · rename_i hpath hblack
            exact ihL black (path ++ [node]) (dependsOn specs node) node black1
              hInv hname (by simp) hblack (fun d hd => Or.inr hd) h
    · intro black path deps node black1 hInv hname hpath hblack hdeps h
      cases deps with
      | nil =>
        unfold dfsList at h
        simp only [DfsResult.ok.injEq] at h
        subst h
        refine ⟨blackInv_append specs black node hInv hname hblack
          (fun d hd => ?_), by simp⟩
        rcases hdeps d hd with hh | hh
        · exact hh
        · simp at hh
      | cons d rest =>
        unfold dfsList at h
        cases hv : dfsVisit specs fuel black path d with
        | ok blackD =>
          rw [hv] at h
          obtain ⟨hInvD, hdD⟩ := ihV black path d blackD hInv hv
          obtain ⟨tail, htail, hnp⟩ := (dfs_black_extends specs fuel).1 _ _ _ _ hv
          have hblackD : node ∉ blackD := by
            rw [htail]
            intro hm
            rcases List.mem_append.mp hm with hm | hm
            · exact hblack hm
            · exact hnp node hm hpath
          refine ihL blackD path rest node black1 hInvD hname hpath hblackD
            (fun d2 hd2 => ?_) h
          rcases hdeps d2 hd2 with hh | hh
          · exact Or.inl (by rw [htail]; exact List.mem_append.mpr (Or.inl hh))
          · rcases List.mem_cons.mp hh with rfl | hh
            · exact Or.inl hdD
            · exact Or.inr hh
        | err e => rw [hv] at h; simp at h
        | fail => rw [hv] at h; simp at h

theorem validateRoots_blackInv (specs : List HandlerSpec) : ∀ (l : List String)
    (black : List String), BlackInv specs black →
    validateRoots specs black l = Except.ok () →
    ∃ blackF, BlackInv specs blackF ∧ (∀ n ∈ l, n ∈ blackF) ∧
      ∀ x ∈ black, x ∈ blackF := by
  intro l
  induction l with
  | nil =>
    intro black hInv _
    exact ⟨black, hInv, by simp, fun x hx => hx⟩
  | cons n rest ih =>
    intro black hInv h
    unfold validateRoots at h
    split at h
    · rename_i hb
      obtain ⟨blackF, hF, hne, hsub⟩ := ih black hInv h
      exact ⟨blackF, hF, fun m hm => by
        rcases List.mem_cons.mp hm with rfl | hm
        · exact hsub m hb
        · exact hne m hm, hsub⟩
    · split at h
      · rename_i black1 hv
        obtain ⟨hInv1, hn1⟩ := (dfs_blackInv specs (dfsFuel specs)).1 _ _ _ _ hInv hv
        obtain ⟨blackF, hF, hne, hsub⟩ := ih black1 hInv1 h
        obtain ⟨tail, htail, _⟩ :=
          (dfs_black_extends specs (dfsFuel specs)).1 _ _ _ _ hv
        refine ⟨blackF, hF, fun m hm => ?_, fun x hx => ?_⟩
        · rcases List.mem_cons.mp hm with rfl | hm
          · exact hsub m hn1
          · exact hne m hm
        · exact hsub x (by rw [htail]; exact List.mem_append.mpr (Or.inl hx))
      · simp at h
      · simp at h

theorem depWalk_pos_lt (specs : List HandlerSpec) (black : List String)
    (hInv : BlackInv specs black)
    (hall : ∀ n ∈ specNames specs, n ∈ black) :
    ∀ a b, DepWalk specs a b → posIn black b < posIn black a := by
  intro a b hw
  induction hw with
  | single hedge =>
    obtain ⟨hnames, hdep⟩ := hedge
    exact ((hInv _ (hall _ hnames)).2 _ hdep).2
  | cons hedge _ ih =>
    obtain ⟨hnames, hdep⟩ := hedge
    exact Nat.lt_trans ih ((hInv _ (hall _ hnames)).2 _ hdep).2

theorem validateNoCycles_ok_noCycle (specs : List HandlerSpec)
    (h : validateNoCycles specs = Except.ok ()) : ¬ HasCycle specs := by
  rintro ⟨a, hw⟩
  obtain ⟨blackF, hInv, hall, _⟩ :=
    validateRoots_blackInv specs (specNames specs) [] (by intro b hb; simp at hb) h
  exact Nat.lt_irrefl _ (depWalk_pos_lt specs blackF hInv hall a a hw)

theorem validateRoots_cycle_sound (specs : List HandlerSpec) :
    ∀ (l black : List String) (c : List String),
      validateRoots specs black l =
        Except.error (GraphError.cycleDetected c) →
      IsDepCycle specs c := by
  intro l
  induction l with
  | nil =>
    intro black c h
    simp [validateRoots] at h
  | cons n rest ih =>
    intro black c h
    unfold validateRoots at h
    split at h
    · exact ih black c h
    · split at h
      · rename_i black1 hv
        exact ih black1 c h
      · rename_i e hv
        simp only [Except.error.injEq] at h
        subst h
        exact (dfs_cycle_sound specs (dfsFuel specs)).1 black [] n c
          (by simp) (by simp) (by simp) hv
      · simp at h

theorem validateRoots_error_cycle (specs : List HandlerSpec)
    (hnd : (specNames specs).Nodup)
    (hclosed : ∀ n ∈ specNames specs, ∀ d ∈ dependsOn specs n,
      d ∈ specNames specs) :
    ∀ (l black : List String), (∀ n ∈ l, n ∈ specNames specs) →
      ∀ e, validateRoots specs black l = Except.error e →
        ∃ c, e = GraphError.cycleDetected c := by
  intro l
  induction l with
  | nil =>
    intro black _ e h
    simp [validateRoots] at h
  | cons n rest ih =>
    intro black hl e h
    unfold validateRoots at h
    split at h
    · exact ih black (fun m hm => hl m (List.mem_cons_of_mem _ hm)) e h
    · split at h
      · rename_i black1 hv
        exact ih black1 (fun m hm => hl m (List.mem_cons_of_mem _ hm)) e h
      · rename_i e2 hv
        simp only [Except.error.injEq] at h
        subst h
        rcases (dfs_err_classify specs (dfsFuel specs)).1 _ _ _ _ hv with
          ⟨n2, rfl⟩ | ⟨c, rfl⟩
        · exact absurd hv ((dfs_no_keyError specs hclosed (dfsFuel specs)).1
            black [] n (hl n (List.mem_cons_self n rest)) n2)
        · exact ⟨c, rfl⟩
      · rename_i hv
        exact absurd hv ((dfs_fuel_sufficient specs hnd (dfsFuel specs)).1
          black [] n (by
            have := dfsW_le_total specs black []
            unfold dfsFuel
            omega))

theorem find?_name_eq (specs : List HandlerSpec)
    (hnd : (specNames specs).Nodup) (s : HandlerSpec) (hs : s ∈ specs) :
    specs.find? (fun t => t.name = s.name) = some s := by
  induction specs with
  | nil => simp at hs
  | cons s0 rest ih =>
    simp only [specNames, List.map_cons, List.nodup_cons] at hnd
    by_cases h0 : s0.name = s.name
    · rw [List.find?_cons_of_pos _ (by simp [h0])]
      rcases List.mem_cons.mp hs with rfl | hs
      · rfl
      · exact absurd (h0 ▸ List.mem_map_of_mem (fun t => t.name) hs) hnd.1
    · rw [List.find?_cons_of_neg _ (by simp [h0])]
      rcases List.mem_cons.mp hs with rfl | hs
      · exact absurd rfl h0
      · exact ih hnd.2 hs

theorem dependsOn_eq_of_mem (specs : List HandlerSpec)
    (hnd : (specNames specs).Nodup) (s : HandlerSpec) (hs : s ∈ specs) :
    dependsOn specs s.name = s.depends_on := by
  unfold dependsOn
  rw [find?_name_eq specs hnd s hs]

theorem dependsOn_mem_exists (specs : List HandlerSpec) (n d : String)
    (hn : n ∈ specNames specs) (hd : d ∈ dependsOn specs n) :
    ∃ s ∈ specs, s.name = n ∧ d ∈ s.depends_on := by
  unfold dependsOn at hd
  cases hf : specs.find? (fun t => t.name = n) with
  | some s =>
    rw [hf] at hd
    have h1 := List.find?_some hf
    simp at h1
    exact ⟨s, List.mem_of_find?_eq_some hf, h1, hd⟩
  | none =>
    rw [hf] at hd
    simp at hd

/-- C5: `GraphValidator.validate` raises `DependencyRegistrationError` when
some handler has an unknown dependency; with all dependencies known, it
raises `CycleDetectedError` — carrying a genuine cycle of the `depends_on`
graph as the reported path — exactly when the graph has a cycle, and returns
normally otherwise. The hypothesis that handler names are distinct holds by
construction, the specs being the values of a `name → spec` dict. -/
theorem C5_graph_validator_validate (specs : List HandlerSpec)
    (hnd : (specNames specs).Nodup) :
    ((∃ n ∈ specNames specs, ∃ d ∈ dependsOn specs n, d ∉ specNames specs) →
      ∃ n d, GraphValidator.validate specs =
          Except.error (GraphError.depReg n d) ∧ d ∉ specNames specs) ∧
    ((∀ n ∈ specNames specs, ∀ d ∈ dependsOn specs n, d ∈ specNames specs) →
      ((∃ c, GraphValidator.validate specs =
          Except.error (GraphError.cycleDetected c) ∧ IsDepCycle specs c) ↔
        HasCycle specs) ∧
      (¬ HasCycle specs → GraphValidator.validate specs = Except.ok ())) := by
  constructor
  · rintro ⟨n, hn, d, hd, hdn⟩
    obtain ⟨s, hs, hsn, hsd⟩ := dependsOn_mem_exists specs n d hn hd
    have hne : validateDepsExist specs specs ≠ Except.ok () := by
      intro hok
      exact hdn ((validateDepsExist_ok_iff specs specs).mp hok s hs d hsd)
    cases he : validateDepsExist specs specs with
    | ok u =>
      cases u
      exact absurd he hne
    | error e =>
      obtain ⟨n2, d2, rfl, _, hd2⟩ := validateDepsExist_error specs specs e he
      refine ⟨n2, d2, ?_, hd2⟩
      unfold GraphValidator.validate
      rw [he]
  · intro hclosed
    have hdeOk : validateDepsExist specs specs = Except.ok () := by
      rw [validateDepsExist_ok_iff]
      intro s hs d hd
      have hn : s.name ∈ specNames specs :=
        List.mem_map_of_mem (fun t => t.name) hs
      exact hclosed s.name hn d
        ((dependsOn_eq_of_mem specs hnd s hs).symm ▸ hd)
    have hval : GraphValidator.validate specs = validateNoCycles specs := by
      unfold GraphValidator.validate
      rw [hdeOk]
    constructor
    · constructor
      · rintro ⟨c, _, hcyc⟩
        exact isDepCycle_hasCycle specs c hcyc
      · intro hcy
        cases hres : validateNoCycles specs with
        | ok u =>
          cases u
          exact absurd hcy (validateNoCycles_ok_noCycle specs hres)
        | error e =>
          obtain ⟨c, rfl⟩ := validateRoots_error_cycle specs hnd hclosed
            (specNames specs) [] (fun m hm => hm) e hres
          exact ⟨c, hval ▸ hres,
            validateRoots_cycle_sound specs (specNames specs) [] c hres⟩
    · intro hnc
      cases hres : validateNoCycles specs with
      | ok u =>
        cases u
        rw [hval, hres]
      | error e =>
        obtain ⟨c, rfl⟩ := validateRoots_error_cycle specs hnd hclosed
          (specNames specs) [] (fun m hm => hm) e hres
        exact absurd (isDepCycle_hasCycle specs c
          (validateRoots_cycle_sound specs (specNames specs) [] c hres)) hnc

/-- Handler `a` depending on the unknown handler `b`. -/
def c5unknown : HandlerSpec :=
  { name := "a", handler := fun _ => HandlerOutcome.ok 0, depends_on := ["b"],
    retry_policy := NoRetryPolicy, failure_policy := FailurePolicy.ABORT }

/-- C5 witness: a dependency-free handler validates (no cycle exists), and an
unknown dependency is reported as `DependencyRegistrationError`. -/
theorem C5_graph_validator_validate_witness :
    GraphValidator.validate [okSpec] = Except.ok () ∧
    (∃ n d, GraphValidator.validate [c5unknown] =
        Except.error (GraphError.depReg n d) ∧ d ∉ specNames [c5unknown]) := by
  have hnoedge : ∀ a b, ¬ depEdge [okSpec] a b := by
    rintro a b ⟨h1, h2⟩
    have ha : a = "a" := by simpa [specNames, okSpec] using h1
    subst ha
    rw [show dependsOn [okSpec] "a" = [] from rfl] at h2
    simp at h2
  have hnc : ¬ HasCycle [okSpec] := by
    rintro ⟨x, hw⟩
    cases hw with
    | single h => exact hnoedge _ _ h
    | cons h _ => exact hnoedge _ _ h
  constructor
  · exact ((C5_graph_validator_validate [okSpec] (by decide)).2 (by decide)).2 hnc
  · exact (C5_graph_validator_validate [c5unknown] (by decide)).1
      ⟨"a", by decide, "b", by decide, by decide⟩

/-! ## C1, C7, C10: trace properties of the dispatcher -/

/-- Handler names with a terminal event (`SUCCEEDED` or `FAILED`) in a trace,
in order. -/
def terminalsIn (tr : List DispatchEvent) : List String :=
  tr.filterMap fun e =>
    match e with
    | DispatchEvent.handlerSucceeded n _ => some n
    | DispatchEvent.handlerFailed n => some n
    | _ => none

/-- The dependency-gating checker of claim C1: every attempt start of a
handler is preceded by a terminal event for each of its dependencies. `term`
accumulates the names with a terminal event. -/
def c1Check (handlers : List HandlerSpec) :
    List DispatchEvent → List String → Bool
  | [], _ => true
  | e :: rest, term =>
    match e with
    | DispatchEvent.attemptStarted n _ =>
      (match handlers.find? (fun s => s.name = n) with
       | some spec => spec.depends_on.all (fun d => decide (d ∈ term))
       | none => false) && c1Check handlers rest term
    | DispatchEvent.handlerSucceeded n _ => c1Check handlers rest (term ++ [n])
    | DispatchEvent.handlerFailed n => c1Check handlers rest (term ++ [n])
    | _ => c1Check handlers rest term

/-- The result map accumulated from the handler returns in a trace. -/
def retAfter (tr : List DispatchEvent) (ret : List (String × Nat)) :
    List (String × Nat) :=
  tr.foldl
    (fun r e =>
      match e with
      | DispatchEvent.attemptReturned n v => setA r n v
      | _ => r)
    ret

/-- The result-visibility checker of claim C7: every attempt of a handler
sees, for each of its dependencies that returned a value, exactly that value
in `deps_results`. -/
def c7Check (handlers : List HandlerSpec) :
    List DispatchEvent → List (String × Nat) → Bool
  | [], _ => true
  | e :: rest, ret =>
    match e with
    | DispatchEvent.attemptStarted n ctx =>
      (match handlers.find? (fun s => s.name = n) with
       | some spec => spec.depends_on.all (fun d =>
           match lookupA ret d with
           | some v => lookupA ctx.deps_results d == some v
           | none => true)
       | none => true) && c7Check handlers rest ret
    | DispatchEvent.attemptReturned n v => c7Check handlers rest (setA ret n v)
    | _ => c7Check handlers rest ret

theorem terminalsIn_append (t1 t2 : List DispatchEvent) :
    terminalsIn (t1 ++ t2) = terminalsIn t1 ++ terminalsIn t2 := by
  simp [terminalsIn]

theorem c1Check_append (handlers : List HandlerSpec) :
    ∀ (t1 t2 : List DispatchEvent) (term : List String),
      c1Check handlers (t1 ++ t2) term =
        (c1Check handlers t1 term &&
          c1Check handlers t2 (term ++ terminalsIn t1)) := by
  intro t1
  induction t1 with
  | nil => intro t2 term; simp [c1Check, terminalsIn]
  | cons e rest ih =>
    intro t2 term
    cases e with
    | attemptStarted n ctx =>
      simp only [List.cons_append, c1Check, ih, terminalsIn]
      cases handlers.find? (fun s => s.name = n) with
      | some spec => simp [ih, Bool.and_assoc, terminalsIn]
      | none => simp
    | handlerSucceeded n v =>
      simp only [List.cons_append, c1Check]
      simp [ih, terminalsIn, List.filterMap_cons]
    | handlerFailed n =>
      simp only [List.cons_append, c1Check]
      simp [ih, terminalsIn, List.filterMap_cons]
    | attemptErrored n e2 =>
      simp only [List.cons_append, c1Check]
      simp [ih, terminalsIn, List.filterMap_cons]
    | attemptReturned n v =>
      simp only [List.cons_append, c1Check]
      simp [ih, terminalsIn, List.filterMap_cons]
    | handlerStarted n =>
      simp only [List.cons_append, c1Check]
      simp [ih, terminalsIn, List.filterMap_cons]
    | visibilityCallAttempted r kw s =>
      simp only [List.cons_append, c1Check]
      simp [ih, terminalsIn, List.filterMap_cons]
    | visibilityReachedQueue r s =>
      simp only [List.cons_append, c1Check]
      simp [ih, terminalsIn, List.filterMap_cons]

theorem retAfter_append (t1 t2 : List DispatchEvent) (ret : List (String × Nat)) :
    retAfter (t1 ++ t2) ret = retAfter t2 (retAfter t1 ret) := by
  simp [retAfter]

theorem c7Check_append (handlers : List HandlerSpec) :
    ∀ (t1 t2 : List DispatchEvent) (ret : List (String × Nat)),
      c7Check handlers (t1 ++ t2) ret =
        (c7Check handlers t1 ret && c7Check handlers t2 (retAfter t1 ret)) := by
  intro t1
  induction t1 with
  | nil => intro t2 ret; simp [c7Check, retAfter]
  | cons e rest ih =>
    intro t2 ret
    cases e with
    | attemptStarted n ctx =>
      simp only [List.cons_append, c7Check, ih]
      cases handlers.find? (fun s => s.name = n) with
      | some spec => simp [ih, Bool.and_assoc, retAfter]
      | none => simp [ih, retAfter]
    | attemptReturned n v =>
      simp only [List.cons_append, c7Check]
      simp [ih, retAfter]
    | handlerSucceeded n v =>
      simp only [List.cons_append, c7Check]
      simp [ih, retAfter]
    | handlerFailed n =>
      simp only [List.cons_append, c7Check]
      simp [ih, retAfter]
    | attemptErrored n e2 =>
      simp only [List.cons_append, c7Check]
      simp [ih, retAfter]
    | handlerStarted n =>
      simp only [List.cons_append, c7Check]
      simp [ih, retAfter]
    | visibilityCallAttempted r kw s =>
      simp only [List.cons_append, c7Check]
      simp [ih, retAfter]
    | visibilityReachedQueue r s =>
      simp only [List.cons_append, c7Check]
      simp [ih, retAfter]

/-- A name has started (its task was created) in the bookkeeping sets. -/
def isStarted (st : ExecState) (n : String) : Prop :=
  n ∈ st.in_progress ∨ n ∈ st.completed ∨ n ∈ st.failed

/-- The machine invariant of `_execute_handler_graph` preserved by every
step of the model. -/
structure MachineInv (env : DispatchEnv) (st : ExecState) : Prop where
  run_ip : ∀ t ∈ st.running, t.name ∈ st.in_progress
  run_nodup : (st.running.map (fun t => t.name)).Nodup
  started_eq : ∀ n, st.trace.count (DispatchEvent.handlerStarted n) =
    if n ∈ st.in_progress ∨ n ∈ st.completed ∨ n ∈ st.failed then 1 else 0
  ready_fresh : ∀ n ∈ st.ready_queue,
    n ∉ st.in_progress ∧ n ∉ st.completed ∧ n ∉ st.failed
  ready_nodup : st.ready_queue.Nodup
  gating_ready : ∀ n ∈ st.ready_queue, ∀ d ∈ dependsOn env.handlers n,
    d ∈ st.completed ∨ d ∈ st.failed
  gating_running : ∀ t ∈ st.running, ∀ d ∈ dependsOn env.handlers t.name,
    d ∈ st.completed ∨ d ∈ st.failed
  comp_trace : ∀ n ∈ st.completed, ∃ v,
    DispatchEvent.handlerSucceeded n v ∈ st.trace
  fail_trace : ∀ n ∈ st.failed, DispatchEvent.handlerFailed n ∈ st.trace
  results_eq : st.mstate.results = retAfter st.trace []
  c1ok : c1Check env.handlers st.trace [] = true
  c7ok : c7Check env.handlers st.trace [] = true

theorem mem_terminalsIn_of_succ (tr : List DispatchEvent) (n : String) (v : Nat)
    (h : DispatchEvent.handlerSucceeded n v ∈ tr) : n ∈ terminalsIn tr := by
  unfold terminalsIn
  exact List.mem_filterMap.mpr ⟨_, h, rfl⟩

theorem mem_terminalsIn_of_fail (tr : List DispatchEvent) (n : String)
    (h : DispatchEvent.handlerFailed n ∈ tr) : n ∈ terminalsIn tr := by
  unfold terminalsIn
  exact List.mem_filterMap.mpr ⟨_, h, rfl⟩

theorem all_dependencies_satisfied_mem (spec : HandlerSpec)
    (completed failed : List String) (fp : FailurePolicy)
    (h : all_dependencies_satisfied spec completed failed fp = true) :
    ∀ d ∈ spec.depends_on, d ∈ completed ∨ d ∈ failed := by
  intro d hd
  have := List.all_eq_true.mp h d hd
  simp only [Bool.and_eq_true, Bool.or_eq_true] at this
  rcases this.2 with hh | hh
  · exact Or.inl (List.mem_of_elem_eq_true hh)
  · exact Or.inr (List.mem_of_elem_eq_true hh)

/-- Facts about `schedule_ready_dependents`: it only appends fresh, gated
dependents and preserves queue freshness, gating, and distinctness. -/
theorem schedule_preserves (handlers : List HandlerSpec) (x : String)
    (fp : FailurePolicy) (completed failed in_progress : List String) :
    ∀ (ds : List String) (rq : List String),
      rq.Nodup →
      (∀ m ∈ rq, m ∉ in_progress ∧ m ∉ completed ∧ m ∉ failed) →
      (∀ m ∈ rq, ∀ d ∈ dependsOn handlers m, d ∈ completed ∨ d ∈ failed) →
      (ds.foldl
        (fun rq dependent =>
          if dependent ∉ completed ∧ dependent ∉ failed ∧
              dependent ∉ in_progress ∧ dependent ∉ rq then
            match handlers.find? (fun s => s.name = dependent) with
            | some dep_spec =>
              if all_dependencies_satisfied dep_spec completed failed fp then
                rq ++ [dependent]
              else rq
            | none => rq
          else rq)
        rq).Nodup ∧
      (∀ m ∈ (ds.foldl
        (fun rq dependent =>
          if dependent ∉ completed ∧ dependent ∉ failed ∧
              dependent ∉ in_progress ∧ dependent ∉ rq then
            match handlers.find? (fun s => s.name = dependent) with
            | some dep_spec =>
              if all_dependencies_satisfied dep_spec completed failed fp then
                rq ++ [dependent]
              else rq
            | none => rq
          else rq)
        rq), (m ∉ in_progress ∧ m ∉ completed ∧ m ∉ failed) ∧
          ∀ d ∈ dependsOn handlers m, d ∈ completed ∨ d ∈ failed) := by
  intro ds
  induction ds with
  | nil =>
    intro rq h1 h2 h3
    exact ⟨h1, fun m hm => ⟨h2 m hm, h3 m hm⟩⟩
  | cons dep rest ih =>
    intro rq h1 h2 h3
    simp only [List.foldl_cons]
    by_cases hfresh : dep ∉ completed ∧ dep ∉ failed ∧ dep ∉ in_progress ∧
        dep ∉ rq
    · rw [if_pos hfresh]
      split
      · rename_i dep_spec hf
        by_cases hsat :
            all_dependencies_satisfied dep_spec completed failed fp = true
        · rw [if_pos hsat]
          apply ih
          · exact List.Nodup.append h1 (List.nodup_singleton dep)
              (by simp [List.disjoint_singleton]; exact hfresh.2.2.2)
          · intro m hm
            rcases List.mem_append.mp hm with hm | hm
            · exact h2 m hm
            · simp at hm
              subst hm
              exact ⟨hfresh.2.2.1, hfresh.1, hfresh.2.1⟩
          · intro m hm
            rcases List.mem_append.mp hm with hm | hm
            · exact h3 m hm
            · simp at hm
              subst hm
              intro d hd
              have hdep : dependsOn handlers m = dep_spec.depends_on := by
                unfold dependsOn
                rw [hf]
              rw [hdep] at hd
              exact all_dependencies_satisfied_mem dep_spec completed failed
                fp hsat d hd
        · rw [if_neg hsat]
          exact ih rq h1 h2 h3
      · exact ih rq h1 h2 h3
    · rw [if_neg hfresh]
      exact ih rq h1 h2 h3

theorem c1Check_started (handlers : List HandlerSpec) (n : String)
    (term : List String) :
    c1Check handlers [DispatchEvent.handlerStarted n] term = true := rfl

theorem c7Check_started (handlers : List HandlerSpec) (n : String)
    (ret : List (String × Nat)) :
    c7Check handlers [DispatchEvent.handlerStarted n] ret = true := rfl

theorem fill_aux (env : DispatchEnv) (st0 : ExecState) :
    ∀ (ready : List String) (running : List RunningTask)
      (inprog : List String) (tr : List DispatchEvent),
      MachineInv env { st0 with
        ready_queue := ready, running := running,
        in_progress := inprog, trace := tr } →
      MachineInv env { st0 with
        ready_queue := (fillReady env ready running inprog tr).1,
        running := (fillReady env ready running inprog tr).2.1,
        in_progress := (fillReady env ready running inprog tr).2.2.1,
        trace := (fillReady env ready running inprog tr).2.2.2 } := by
  intro ready
  induction ready with
  | nil =>
    intro running inprog tr hInv
    exact hInv
  | cons n rest ih =>
    intro running inprog tr hInv
    unfold fillReady
    by_cases hlim : running.length < env.concurrency_limit
    · rw [if_pos hlim]
      by_cases hip : n ∈ inprog
      · rw [if_pos hip]
        apply ih
        constructor
        · exact hInv.run_ip
        · exact hInv.run_nodup
        · exact hInv.started_eq
        · intro m hm
          exact hInv.ready_fresh m (List.mem_cons_of_mem _ hm)
        · exact hInv.ready_nodup.of_cons
        · intro m hm
          exact hInv.gating_ready m (List.mem_cons_of_mem _ hm)
        · exact hInv.gating_running
        · exact hInv.comp_trace
        · exact hInv.fail_trace
        · exact hInv.results_eq
        · exact hInv.c1ok
        · exact hInv.c7ok
      · rw [if_neg hip]
        have hfresh := hInv.ready_fresh n (List.mem_cons_self n rest)
        apply ih
        constructor
        · intro t ht
          rcases List.mem_append.mp ht with ht | ht
          · exact List.mem_append.mpr (Or.inl (hInv.run_ip t ht))
          · simp at ht
            subst ht
            simp
        · rw [List.map_append]
          refine List.Nodup.append hInv.run_nodup (by simp) ?_
          simp only [List.map_cons, List.map_nil, List.disjoint_singleton]
          intro hc
          rcases List.mem_map.mp hc with ⟨t, ht, htn⟩
          exact hip (htn ▸ hInv.run_ip t ht)
        · intro m
          rw [List.count_append]
          by_cases hmn : m = n
          · subst hmn
            have h0 := hInv.started_eq m
            simp only at h0
            rw [if_neg (by push_neg; exact ⟨hfresh.1, hfresh.2.1, hfresh.2.2⟩)] at h0
            rw [h0]
            simp
          · have h0 := hInv.started_eq m
            simp only at h0
            rw [h0]
            have : List.count (DispatchEvent.handlerStarted m)
                [DispatchEvent.handlerStarted n] = 0 :=
              List.count_eq_zero.mpr (by simp [hmn])
            rw [this]
            have hmem : (m ∈ inprog ++ [n] ∨ m ∈ st0.completed ∨ m ∈ st0.failed) ↔
                (m ∈ inprog ∨ m ∈ st0.completed ∨ m ∈ st0.failed) := by
              constructor
              · rintro (hh | hh)
                · rcases List.mem_append.mp hh with hh | hh
                  · exact Or.inl hh
                  · simp at hh
                    exact absurd hh hmn
                · exact Or.inr hh
              · rintro (hh | hh)
                · exact Or.inl (List.mem_append.mpr (Or.inl hh))
                · exact Or.inr hh
            simp only [hmem]
            omega
        · intro m hm
          have hf := hInv.ready_fresh m (List.mem_cons_of_mem _ hm)
          have hmn : m ≠ n := by
            intro he
            subst he
            exact (List.nodup_cons.mp hInv.ready_nodup).1 hm
          refine ⟨?_, hf.2.1, hf.2.2⟩
          intro hc
          rcases List.mem_append.mp hc with hc | hc
          · exact hf.1 hc
          · simp at hc
            exact hmn hc
        · exact hInv.ready_nodup.of_cons
        · intro m hm
          exact hInv.gating_ready m (List.mem_cons_of_mem _ hm)
        · intro t ht
          rcases List.mem_append.mp ht with ht | ht
          · exact hInv.gating_running t ht
          · simp at ht
            subst ht
            exact hInv.gating_ready n (List.mem_cons_self n rest)
        · intro m hm
          obtain ⟨v, hv⟩ := hInv.comp_trace m hm
          exact ⟨v, List.mem_append.mpr (Or.inl hv)⟩
        · intro m hm
          exact List.mem_append.mpr (Or.inl (hInv.fail_trace m hm))
        · show st0.mstate.results = _
          rw [retAfter_append]
          have : retAfter [DispatchEvent.handlerStarted n]
              (retAfter tr []) = retAfter tr [] := rfl
          rw [this]
          exact hInv.results_eq
        · rw [c1Check_append]
          simp [hInv.c1ok, c1Check_started]
        · rw [c7Check_append]
          simp [hInv.c7ok, c7Check_started]
    · rw [if_neg hlim]
      exact hInv

theorem updateHState_results (ms : MessageState) (n : String)
    (f : HandlerState → HandlerState) :
    (updateHState ms n f).results = ms.results := rfl

theorem markSkippedGo_results (handlers : List HandlerSpec) :
    ∀ (fuel : Nat) (q : List String) (ms : MessageState),
      (markSkippedGo handlers fuel q ms).results = ms.results := by
  intro fuel
  induction fuel with
  | zero => intro q ms; rfl
  | succ fuel ih =>
    intro q ms
    cases q with
    | nil => rfl
    | cons d rest =>
      unfold markSkippedGo
      split
      · rw [ih]
        rfl
      · rw [ih]

theorem mark_dependents_skipped_results (handlers : List HandlerSpec)
    (x : String) (ms : MessageState) :
    (mark_dependents_skipped handlers x ms).results = ms.results := by
  unfold mark_dependents_skipped
  exact markSkippedGo_results handlers _ _ ms

theorem c1Check_vis (handlers : List HandlerSpec) (env : DispatchEnv)
    (term : List String) : c1Check handlers (visEvents env) term = true := by
  unfold visEvents
  cases env.queue with
  | none => rfl
  | some q =>
    dsimp only
    by_cases h : q.has_change_message_visibility = true
    · rw [if_pos h]
      by_cases h2 : q.visibility_param = "visibility_seconds"
      · rw [if_pos h2]; rfl
      · rw [if_neg h2]; rfl
    · rw [if_neg h]; rfl

theorem c7Check_vis (handlers : List HandlerSpec) (env : DispatchEnv)
    (ret : List (String × Nat)) : c7Check handlers (visEvents env) ret = true := by
  unfold visEvents
  cases env.queue with
  | none => rfl
  | some q =>
    dsimp only
    by_cases h : q.has_change_message_visibility = true
    · rw [if_pos h]
      by_cases h2 : q.visibility_param = "visibility_seconds"
      · rw [if_pos h2]; rfl
      · rw [if_neg h2]; rfl
    · rw [if_neg h]; rfl

theorem retAfter_vis (env : DispatchEnv) (ret : List (String × Nat)) :
    retAfter (visEvents env) ret = ret := by
  unfold visEvents
  cases env.queue with
  | none => rfl
  | some q =>
    dsimp only
    by_cases h : q.has_change_message_visibility = true
    · rw [if_pos h]
      by_cases h2 : q.visibility_param = "visibility_seconds"
      · rw [if_pos h2]; rfl
      · rw [if_neg h2]; rfl
    · rw [if_neg h]; rfl

theorem terminalsIn_vis (env : DispatchEnv) : terminalsIn (visEvents env) = [] := by
  unfold visEvents
  cases env.queue with
  | none => rfl
  | some q =>
    dsimp only
    by_cases h : q.has_change_message_visibility = true
    · rw [if_pos h]
      by_cases h2 : q.visibility_param = "visibility_seconds"
      · rw [if_pos h2]; rfl
      · rw [if_neg h2]; rfl
    · rw [if_neg h]; rfl

theorem failCompletion_preserves (env : DispatchEnv) (stf : ExecState)
    (name : String) (spec : HandlerSpec) (e : Nat)
    (hInv : MachineInv env stf)
    (hip : name ∈ stf.in_progress)
    (hrun : ∀ t2 ∈ stf.running, t2.name ≠ name) :
    (∀ st3, failCompletion env stf name spec e = Except.ok st3 →
      MachineInv env st3) ∧
    (∀ me stE, failCompletion env stf name spec e = Except.error (me, stE) →
      MachineInv env stE) := by
  have hready_ne : ∀ m ∈ stf.ready_queue, m ≠ name := by
    intro m hm he
    exact (hInv.ready_fresh m hm).1 (he ▸ hip)
  constructor
  · intro st3 h
    unfold failCompletion at h
    split at h
    · simp at h
    · rename_i hmark
      have hmsr : (updateHState stf.mstate name (fun h => { h with status := HandlerStatus.FAILED, last_error := some e })).results = stf.mstate.results := rfl
      split at h
      · -- abort branch: mark dependents skipped, no scheduling
        simp only [Except.ok.injEq] at h
        subst h
        constructor
        · intro t2 ht2
          exact (List.mem_erase_of_ne (hrun t2 ht2)).mpr (hInv.run_ip t2 ht2)
        · exact hInv.run_nodup
        · intro m
          show List.count _ (stf.trace ++ [DispatchEvent.handlerFailed name]) = _
          rw [List.count_append]
          have hz : List.count (DispatchEvent.handlerStarted m)
              [DispatchEvent.handlerFailed name] = 0 :=
            List.count_eq_zero.mpr (by simp)
          rw [hz, hInv.started_eq m]
          by_cases hmn : m = name
          · subst hmn
            rw [if_pos (Or.inl hip)]
            rw [if_pos (Or.inr (Or.inr (List.mem_append.mpr (Or.inr (by simp)))))]
          · by_cases hm : m ∈ stf.in_progress ∨ m ∈ stf.completed ∨ m ∈ stf.failed
            · rw [if_pos hm]
              rcases hm with hm | hm | hm
              · rw [if_pos (Or.inl ((List.mem_erase_of_ne hmn).mpr hm))]
              · rw [if_pos (Or.inr (Or.inl hm))]
              · rw [if_pos (Or.inr (Or.inr (List.mem_append.mpr (Or.inl hm))))]
            · rw [if_neg hm, if_neg ?_]
              push_neg at hm ⊢
              refine ⟨fun hc => hm.1 (List.erase_subset _ _ hc), hm.2.1, ?_⟩
              intro hc
              rcases List.mem_append.mp hc with hc | hc
              · exact hm.2.2 hc
              · simp at hc
                exact hmn hc
        · intro m hm
          have hf := hInv.ready_fresh m hm
          refine ⟨fun hc => hf.1 (List.erase_subset _ _ hc), hf.2.1, ?_⟩
          intro hc
          rcases List.mem_append.mp hc with hc | hc
          · exact hf.2.2 hc
          · simp at hc
            exact hready_ne m hm hc
        · exact hInv.ready_nodup
        · intro m hm d hd
          rcases hInv.gating_ready m hm d hd with hh | hh
          · exact Or.inl hh
          · exact Or.inr (List.mem_append.mpr (Or.inl hh))
        · intro t2 ht2 d hd
          rcases hInv.gating_running t2 ht2 d hd with hh | hh
          · exact Or.inl hh
          · exact Or.inr (List.mem_append.mpr (Or.inl hh))
        · intro m hm
          obtain ⟨v, hv⟩ := hInv.comp_trace m hm
          exact ⟨v, List.mem_append.mpr (Or.inl hv)⟩
        · intro m hm
          rcases List.mem_append.mp hm with hm | hm
          · exact List.mem_append.mpr (Or.inl (hInv.fail_trace m hm))
          · simp at hm
            subst hm
            exact List.mem_append.mpr (Or.inr (by simp))
        · show (mark_dependents_skipped _ _ _).results = _
          rw [mark_dependents_skipped_results, hmsr, retAfter_append]
          have : retAfter [DispatchEvent.handlerFailed name]
              (retAfter stf.trace []) = retAfter stf.trace [] := rfl
          rw [this]
          exact hInv.results_eq
        · rw [c1Check_append]
          simp only [hInv.c1ok, Bool.true_and]
          rfl
        · rw [c7Check_append]
          simp only [hInv.c7ok, Bool.true_and]
          rfl
      · -- continue/compensate branch: schedule dependents
        simp only [Except.ok.injEq] at h
        subst h
        have hsch := schedule_preserves env.handlers name spec.failure_policy
          stf.completed (stf.failed ++ [name]) (stf.in_progress.erase name)
          (dependentsOf env.handlers name) stf.ready_queue
          hInv.ready_nodup
          (by
            intro m hm
            have hf := hInv.ready_fresh m hm
            refine ⟨fun hc => hf.1 (List.erase_subset _ _ hc), hf.2.1, ?_⟩
            intro hc
            rcases List.mem_append.mp hc with hc | hc
            · exact hf.2.2 hc
            · simp at hc
              exact hready_ne m hm hc)
          (by
            intro m hm d hd
            rcases hInv.gating_ready m hm d hd with hh | hh
            · exact Or.inl hh
            · exact Or.inr (List.mem_append.mpr (Or.inl hh)))
        constructor
        · intro t2 ht2
          exact (List.mem_erase_of_ne (hrun t2 ht2)).mpr (hInv.run_ip t2 ht2)
        · exact hInv.run_nodup
        · intro m
          show List.count _ (stf.trace ++ [DispatchEvent.handlerFailed name]) = _
          rw [List.count_append]
          have hz : List.count (DispatchEvent.handlerStarted m)
              [DispatchEvent.handlerFailed name] = 0 :=
            List.count_eq_zero.mpr (by simp)
          rw [hz, hInv.started_eq m]
          by_cases hmn : m = name
          · subst hmn
            rw [if_pos (Or.inl hip)]
            rw [if_pos (Or.inr (Or.inr (List.mem_append.mpr (Or.inr (by simp)))))]
          · by_cases hm : m ∈ stf.in_progress ∨ m ∈ stf.completed ∨ m ∈ stf.failed
            · rw [if_pos hm]
              rcases hm with hm | hm | hm
              · rw [if_pos (Or.inl ((List.mem_erase_of_ne hmn).mpr hm))]
              · rw [if_pos (Or.inr (Or.inl hm))]
              · rw [if_pos (Or.inr (Or.inr (List.mem_append.mpr (Or.inl hm))))]
            · rw [if_neg hm, if_neg ?_]
              push_neg at hm ⊢
              refine ⟨fun hc => hm.1 (List.erase_subset _ _ hc), hm.2.1, ?_⟩
              intro hc
              rcases List.mem_append.mp hc with hc | hc
              · exact hm.2.2 hc
              · simp at hc
                exact hmn hc
        · intro m hm
          exact (hsch.2 m hm).1
        · exact hsch.1
        · intro m hm d hd
          exact (hsch.2 m hm).2 d hd
        · intro t2 ht2 d hd
          rcases hInv.gating_running t2 ht2 d hd with hh | hh
          · exact Or.inl hh
          · exact Or.inr (List.mem_append.mpr (Or.inl hh))
        · intro m hm
          obtain ⟨v, hv⟩ := hInv.comp_trace m hm
          exact ⟨v, List.mem_append.mpr (Or.inl hv)⟩
        · intro m hm
          rcases List.mem_append.mp hm with hm | hm
          · exact List.mem_append.mpr (Or.inl (hInv.fail_trace m hm))
          · simp at hm
            subst hm
            exact List.mem_append.mpr (Or.inr (by simp))
        · show (updateHState stf.mstate name _).results = _
          rw [hmsr, retAfter_append]
          have : retAfter [DispatchEvent.handlerFailed name]
              (retAfter stf.trace []) = retAfter stf.trace [] := rfl
          rw [this]
          exact hInv.results_eq
        · rw [c1Check_append]
          simp only [hInv.c1ok, Bool.true_and]
          rfl
        · rw [c7Check_append]
          simp only [hInv.c7ok, Bool.true_and]
          rfl
  · intro me stE h
    unfold failCompletion at h
    split at h
    · simp only [Except.error.injEq, Prod.mk.injEq] at h
      obtain ⟨_, h2⟩ := h
      subst h2
      constructor
      · exact hInv.run_ip
      · exact hInv.run_nodup
      · exact hInv.started_eq
      · exact hInv.ready_fresh
      · exact hInv.ready_nodup
      · exact hInv.gating_ready
      · exact hInv.gating_running
      · exact hInv.comp_trace
      · exact hInv.fail_trace
      · show (updateHState stf.mstate name _).results = _
        rw [updateHState_results]
        exact hInv.results_eq
      · exact hInv.c1ok
      · exact hInv.c7ok
    · split at h
      · simp at h
      · simp at h

theorem count_started_vis (env : DispatchEnv) (n : String) :
    (visEvents env).count (DispatchEvent.handlerStarted n) = 0 := by
  unfold visEvents
  cases env.queue with
  | none => rfl
  | some q =>
    dsimp only
    by_cases h : q.has_change_message_visibility = true
    · rw [if_pos h]
      by_cases h2 : q.visibility_param = "visibility_seconds"
      · rw [if_pos h2]; rfl
      · rw [if_neg h2]; rfl
    · rw [if_neg h]; rfl

theorem c1Check_start_cons (handlers : List HandlerSpec) (n : String)
    (ctx : HandlerContext) (evs : List DispatchEvent) (term : List String)
    (spec : HandlerSpec)
    (hf : handlers.find? (fun s => s.name = n) = some spec)
    (hdeps : ∀ d ∈ spec.depends_on, d ∈ term)
    (hrest : c1Check handlers evs term = true) :
    c1Check handlers (DispatchEvent.attemptStarted n ctx :: evs) term = true := by
  show ((match handlers.find? (fun s => s.name = n) with
    | some spec => spec.depends_on.all (fun d => decide (d ∈ term))
    | none => false) && c1Check handlers evs term) = true
  rw [hf, hrest]
  simp only [Bool.and_true]
  exact List.all_eq_true.mpr (fun d hd => decide_eq_true (hdeps d hd))

theorem c7Check_start_cons (handlers : List HandlerSpec) (n : String)
    (ctx : HandlerContext) (evs : List DispatchEvent)
    (ret : List (String × Nat))
    (hctx : ctx.deps_results = ret)
    (hrest : c7Check handlers evs ret = true) :
    c7Check handlers (DispatchEvent.attemptStarted n ctx :: evs) ret = true := by
  show ((match handlers.find? (fun s => s.name = n) with
    | some spec => spec.depends_on.all (fun d =>
        match lookupA ret d with
        | some v => lookupA ctx.deps_results d == some v
        | none => true)
    | none => true) && c7Check handlers evs ret) = true
  rw [hrest]
  simp only [Bool.and_true]
  cases handlers.find? (fun s => s.name = n) with
  | none => rfl
  | some spec =>
    refine List.all_eq_true.mpr (fun d hd => ?_)
    cases hl : lookupA ret d with
    | none => simp
    | some v =>
      show (lookupA ctx.deps_results d == some v) = true
      rw [hctx, hl]
      simp

theorem mem_shift_comp (ip comp fl : List String) (name m : String)
    (hip : name ∈ ip) :
    (m ∈ ip.erase name ∨ m ∈ comp ++ [name] ∨ m ∈ fl) ↔
      (m ∈ ip ∨ m ∈ comp ∨ m ∈ fl) := by
  by_cases hmn : m = name
  · subst hmn
    simp [hip]
  · rw [List.mem_erase_of_ne hmn]
    constructor
    · rintro (h | h | h)
      · exact Or.inl h
      · rcases List.mem_append.mp h with h | h
        · exact Or.inr (Or.inl h)
        · simp at h
          exact absurd h hmn
      · exact Or.inr (Or.inr h)
    · rintro (h | h | h)
      · exact Or.inl h
      · exact Or.inr (Or.inl (List.mem_append.mpr (Or.inl h)))
      · exact Or.inr (Or.inr h)

/-- The invariant holds for the state carried by the step result, whether the
attempt settled normally or an escaping exception aborted the graph. -/
def resultStateInv (env : DispatchEnv) :
    Except (Nat × ExecState) ExecState → Prop
  | Except.ok st => MachineInv env st
  | Except.error (_, st) => MachineInv env st

theorem failCompletion_inv (env : DispatchEnv) (stf : ExecState)
    (name : String) (spec : HandlerSpec) (e : Nat)
    (hInv : MachineInv env stf)
    (hip : name ∈ stf.in_progress)
    (hrun : ∀ t2 ∈ stf.running, t2.name ≠ name) :
    resultStateInv env (failCompletion env stf name spec e) := by
  cases hfc : failCompletion env stf name spec e with
  | ok st3 =>
    exact (failCompletion_preserves env stf name spec e hInv hip hrun).1 st3 hfc
  | error p =>
    obtain ⟨me, stE⟩ := p
    exact (failCompletion_preserves env stf name spec e hInv hip hrun).2 me stE hfc

theorem runAttempt_inv (env : DispatchEnv) (st1 : ExecState)
    (t : RunningTask) (rest : List RunningTask)
    (hInv : MachineInv env st1)
    (hperm : st1.running.Perm (t :: rest)) :
    resultStateInv env (runAttempt env { st1 with running := rest } t) := by
  have hmem : t ∈ st1.running := hperm.mem_iff.mpr (List.mem_cons_self t rest)
  have hip : t.name ∈ st1.in_progress := hInv.run_ip t hmem
  have hnd2 : (t.name :: rest.map (fun t2 => t2.name)).Nodup := by
    have h := (hperm.map (fun t2 => t2.name)).nodup_iff.mp hInv.run_nodup
    simpa using h
  have htn : t.name ∉ rest.map (fun t2 => t2.name) := (List.nodup_cons.mp hnd2).1
  have hrestnd : (rest.map (fun t2 => t2.name)).Nodup := (List.nodup_cons.mp hnd2).2
  have hrun_ne : ∀ t2 ∈ rest, t2.name ≠ t.name := by
    intro t2 h2 he
    exact htn (he ▸ List.mem_map_of_mem (fun t2 => t2.name) h2)
  have hrest_mem : ∀ t2 ∈ rest, t2 ∈ st1.running := fun t2 h =>
    hperm.mem_iff.mpr (List.mem_cons_of_mem t h)
  have hready_ne : ∀ m ∈ st1.ready_queue, m ≠ t.name := by
    intro m hm he
    exact (hInv.ready_fresh m hm).1 (he ▸ hip)
  unfold runAttempt
  split
  · -- handler name not registered: state unchanged apart from the popped task
    constructor
    · intro t2 ht2
      exact hInv.run_ip t2 (hrest_mem t2 ht2)
    · exact hrestnd
    · exact hInv.started_eq
    · exact hInv.ready_fresh
    · exact hInv.ready_nodup
    · exact hInv.gating_ready
    · intro t2 ht2
      exact hInv.gating_running t2 (hrest_mem t2 ht2)
    · exact hInv.comp_trace
    · exact hInv.fail_trace
    · exact hInv.results_eq
    · exact hInv.c1ok
    · exact hInv.c7ok
  · rename_i spec hf
    have hdeps_eq : dependsOn env.handlers t.name = spec.depends_on := by
      unfold dependsOn
      rw [hf]
    have hterm : ∀ d ∈ spec.depends_on, d ∈ terminalsIn st1.trace := by
      intro d hd
      rcases hInv.gating_running t hmem d (hdeps_eq.symm ▸ hd) with hc | hc
      · obtain ⟨v, hv⟩ := hInv.comp_trace d hc
        exact mem_terminalsIn_of_succ st1.trace d v hv
      · exact mem_terminalsIn_of_fail st1.trace d (hInv.fail_trace d hc)
    dsimp only
    split
    · -- the attempt returned a value
      rename_i v hout
      split
      · -- save_handler_result raised: completion runs the failure path
        rename_i se hsave
        refine failCompletion_inv env _ t.name spec se ?_ hip hrun_ne
        constructor
        · intro t2 ht2
          exact hInv.run_ip t2 (hrest_mem t2 ht2)
        · exact hrestnd
        · intro m
          have h0 := hInv.started_eq m
          simp only [List.count_append]
          rw [h0]
          simp
        · exact hInv.ready_fresh
        · exact hInv.ready_nodup
        · exact hInv.gating_ready
        · intro t2 ht2
          exact hInv.gating_running t2 (hrest_mem t2 ht2)
        · intro m hm
          obtain ⟨v2, hv2⟩ := hInv.comp_trace m hm
          exact ⟨v2, by simp [hv2]⟩
        · intro m hm
          have hh := hInv.fail_trace m hm
          simp [hh]
        · show setA st1.mstate.results t.name v = _
          rw [hInv.results_eq, retAfter_append, retAfter_append]
          rfl
        · rw [List.append_assoc, c1Check_append]
          simp only [hInv.c1ok, Bool.true_and, List.nil_append]
          exact c1Check_start_cons env.handlers t.name _ _ _ spec hf hterm rfl
        · rw [List.append_assoc, c7Check_append]
          simp only [hInv.c7ok, Bool.true_and]
          exact c7Check_start_cons env.handlers t.name _ _ _ hInv.results_eq rfl
      · -- normal success: move to completed and schedule dependents
        rename_i hsave
        have hsch := schedule_preserves env.handlers t.name spec.failure_policy
          (st1.completed ++ [t.name]) st1.failed (st1.in_progress.erase t.name)
          (dependentsOf env.handlers t.name) st1.ready_queue
          hInv.ready_nodup
          (by
            intro m hm
            have hfm := hInv.ready_fresh m hm
            refine ⟨fun hc => hfm.1 (List.erase_subset _ _ hc), ?_, hfm.2.2⟩
            intro hc
            rcases List.mem_append.mp hc with hc | hc
            · exact hfm.2.1 hc
            · simp at hc
              exact hready_ne m hm hc)
          (by
            intro m hm d hd
            rcases hInv.gating_ready m hm d hd with hh | hh
            · exact Or.inl (List.mem_append.mpr (Or.inl hh))
            · exact Or.inr hh)
        constructor
        · intro t2 ht2
          exact (List.mem_erase_of_ne (hrun_ne t2 ht2)).mpr
            (hInv.run_ip t2 (hrest_mem t2 ht2))
        · exact hrestnd
        · intro m
          simp only [List.count_append,
            mem_shift_comp st1.in_progress st1.completed st1.failed t.name m hip]
          rw [hInv.started_eq m]
          simp
        · intro m hm
          exact (hsch.2 m hm).1
        · exact hsch.1
        · intro m hm d hd
          exact (hsch.2 m hm).2 d hd
        · intro t2 ht2 d hd
          rcases hInv.gating_running t2 (hrest_mem t2 ht2) d hd with hh | hh
          · exact Or.inl (List.mem_append.mpr (Or.inl hh))
          · exact Or.inr hh
        · intro m hm
          rcases List.mem_append.mp hm with hm | hm
          · obtain ⟨v2, hv2⟩ := hInv.comp_trace m hm
            exact ⟨v2, by simp [hv2]⟩
          · simp at hm
            subst hm
            exact ⟨v, by simp⟩
        · intro m hm
          have hh := hInv.fail_trace m hm
          simp [hh]
        · show setA st1.mstate.results t.name v = _
          rw [hInv.results_eq, retAfter_append, retAfter_append, retAfter_append]
          rfl
        · rw [List.append_assoc, List.append_assoc, c1Check_append]
          simp only [hInv.c1ok, Bool.true_and, List.nil_append]
          exact c1Check_start_cons env.handlers t.name _ _ _ spec hf hterm rfl
        · rw [List.append_assoc, List.append_assoc, c7Check_append]
          simp only [hInv.c7ok, Bool.true_and]
          exact c7Check_start_cons env.handlers t.name _ _ _ hInv.results_eq rfl
    · -- the attempt raised
      rename_i e hout
      split
      · -- the policy retries: the task re-enters running with the next attempt
        rename_i hretry
        constructor
        · intro t2 ht2
          rcases List.mem_append.mp ht2 with ht2 | ht2
          · exact hInv.run_ip t2 (hrest_mem t2 ht2)
          · simp at ht2
            subst ht2
            exact hip
        · rw [List.map_append]
          refine List.Nodup.append hrestnd (by simp) ?_
          intro a ha hb
          simp at hb
          subst hb
          exact htn ha
        · intro m
          have h0 := hInv.started_eq m
          simp only [List.count_append]
          rw [h0, count_started_vis env m]
          simp
        · exact hInv.ready_fresh
        · exact hInv.ready_nodup
        · exact hInv.gating_ready
        · intro t2 ht2 d hd
          rcases List.mem_append.mp ht2 with ht2 | ht2
          · exact hInv.gating_running t2 (hrest_mem t2 ht2) d hd
          · simp at ht2
            subst ht2
            exact hInv.gating_running t hmem d hd
        · intro m hm
          obtain ⟨v2, hv2⟩ := hInv.comp_trace m hm
          exact ⟨v2, by simp [hv2]⟩
        · intro m hm
          have hh := hInv.fail_trace m hm
          simp [hh]
        · show st1.mstate.results = _
          rw [retAfter_append, retAfter_append, retAfter_append, retAfter_vis]
          exact hInv.results_eq
        · rw [List.append_assoc, List.append_assoc, c1Check_append]
          simp only [hInv.c1ok, Bool.true_and, List.nil_append]
          refine c1Check_start_cons env.handlers t.name _ _ _ spec hf hterm ?_
          exact c1Check_vis env.handlers env (terminalsIn st1.trace)
        · rw [List.append_assoc, List.append_assoc, c7Check_append]
          simp only [hInv.c7ok, Bool.true_and]
          refine c7Check_start_cons env.handlers t.name _ _ _ hInv.results_eq ?_
          exact c7Check_vis env.handlers env (retAfter st1.trace [])
      · -- retries exhausted: completion runs the failure path
        rename_i hretry
        refine failCompletion_inv env _ t.name spec e ?_ hip hrun_ne
        constructor
        · intro t2 ht2
          exact hInv.run_ip t2 (hrest_mem t2 ht2)
        · exact hrestnd
        · intro m
          have h0 := hInv.started_eq m
          simp only [List.count_append]
          rw [h0]
          simp
        · exact hInv.ready_fresh
        · exact hInv.ready_nodup
        · exact hInv.gating_ready
        · intro t2 ht2
          exact hInv.gating_running t2 (hrest_mem t2 ht2)
        · intro m hm
          obtain ⟨v2, hv2⟩ := hInv.comp_trace m hm
          exact ⟨v2, by simp [hv2]⟩
        · intro m hm
          have hh := hInv.fail_trace m hm
          simp [hh]
        · show st1.mstate.results = _
          rw [retAfter_append, retAfter_append]
          exact hInv.results_eq
        · rw [List.append_assoc, c1Check_append]
          simp only [hInv.c1ok, Bool.true_and, List.nil_append]
          exact c1Check_start_cons env.handlers t.name _ _ _ spec hf hterm rfl
        · rw [List.append_assoc, c7Check_append]
          simp only [hInv.c7ok, Bool.true_and]
          exact c7Check_start_cons env.handlers t.name _ _ _ hInv.results_eq rfl

theorem pickTask_perm : ∀ (l : List RunningTask) (i : Nat), i < l.length →
    l.Perm ((pickTask l i).1 :: (pickTask l i).2) := by
  intro l
  induction l with
  | nil =>
    intro i h
    simp at h
  | cons t rest ih =>
    intro i h
    cases i with
    | zero => exact List.Perm.refl _
    | succ i =>
      have hi : i < rest.length := by simpa using h
      have hp := ih i hi
      exact (hp.cons t).trans
        (List.Perm.swap (pickTask rest i).1 t (pickTask rest i).2)

theorem fillState_inv (env : DispatchEnv) (st : ExecState)
    (hInv : MachineInv env st) : MachineInv env (fillState env st) :=
  fill_aux env st st.ready_queue st.running st.in_progress st.trace hInv

theorem execLoop_inv (env : DispatchEnv) (sched : Nat → Nat) :
    ∀ (fuel k : Nat) (st : ExecState), MachineInv env st →
      resultStateInv env (execLoop env sched k fuel st) := by
  intro fuel
  induction fuel with
  | zero =>
    intro k st h
    unfold execLoop
    exact h
  | succ fuel ih =>
    intro k st h
    unfold execLoop
    split
    · exact h
    · have h1 : MachineInv env (fillState env st) := fillState_inv env st h
      dsimp only
      split
      · exact ih (k + 1) (fillState env st) h1
      · rename_i a l heq
        have hlen : 0 < (fillState env st).running.length := by
          rw [heq]
          simp
        have hperm := pickTask_perm (fillState env st).running
          (sched k % (fillState env st).running.length)
          (Nat.mod_lt _ hlen)
        have hra := runAttempt_inv env (fillState env st)
          (pickTask (fillState env st).running
            (sched k % (fillState env st).running.length)).1
          (pickTask (fillState env st).running
            (sched k % (fillState env st).running.length)).2
          h1 hperm
        split
        · rename_i es heq2
          rw [heq2] at hra
          exact hra
        · rename_i st3 heq2
          rw [heq2] at hra
          exact ih (k + 1) st3 hra

theorem initState_inv (env : DispatchEnv)
    (hnd : (specNames env.handlers).Nodup) :
    MachineInv env (initState env) := by
  constructor
  · intro t2 ht2
    simp [initState] at ht2
  · simp [initState]
  · intro m
    simp [initState]
  · intro m hm
    simp [initState]
  · have hsub : ((env.handlers.filter (fun s => s.depends_on.isEmpty)).map
        (fun s => s.name)).Sublist (specNames env.handlers) :=
      (List.filter_sublist _).map _
    exact List.Nodup.sublist hsub hnd
  · intro m hm d hd
    simp only [initState] at hm
    rcases List.mem_map.mp hm with ⟨s, hs, rfl⟩
    have hsf := List.mem_filter.mp hs
    have hde : dependsOn env.handlers s.name = s.depends_on :=
      dependsOn_eq_of_mem env.handlers hnd s hsf.1
    rw [hde] at hd
    have h0 : s.depends_on = [] := by
      have := hsf.2
      simpa [List.isEmpty_iff] using this
    rw [h0] at hd
    simp at hd
  · intro t2 ht2
    simp [initState] at ht2
  · intro m hm
    simp [initState] at hm
  · intro m hm
    simp [initState] at hm
  · rfl
  · rfl
  · rfl

theorem dispatch_inv (env : DispatchEnv) (sched : Nat → Nat) (fuel : Nat)
    (hnd : (specNames env.handlers).Nodup) (r : DispatchResult)
    (h : EventDispatcher.dispatch env sched fuel = Except.ok r) :
    MachineInv env r.final := by
  unfold EventDispatcher.dispatch at h
  split at h
  · simp only [Except.ok.injEq] at h
    subst h
    exact initState_inv env hnd
  · split at h
    · simp at h
    · split at h
      · rename_i st heq
        simp only [Except.ok.injEq] at h
        subst h
        have hm := execLoop_inv env sched fuel 0 (initState env)
          (initState_inv env hnd)
        rw [heq] at hm
        constructor
        · exact hm.run_ip
        · exact hm.run_nodup
        · exact hm.started_eq
        · exact hm.ready_fresh
        · exact hm.ready_nodup
        · exact hm.gating_ready
        · exact hm.gating_running
        · exact hm.comp_trace
        · exact hm.fail_trace
        · exact hm.results_eq
        · exact hm.c1ok
        · exact hm.c7ok
      · rename_i est heq
        obtain ⟨me, stE⟩ := est
        simp only [Except.ok.injEq] at h
        subst h
        have hm := execLoop_inv env sched fuel 0 (initState env)
          (initState_inv env hnd)
        rw [heq] at hm
        constructor
        · exact hm.run_ip
        · exact hm.run_nodup
        · exact hm.started_eq
        · exact hm.ready_fresh
        · exact hm.ready_nodup
        · exact hm.gating_ready
        · exact hm.gating_running
        · exact hm.comp_trace
        · exact hm.fail_trace
        · exact hm.results_eq
        · exact hm.c1ok
        · exact hm.c7ok

/-- The C10 witness dispatch: the C2 graph run with loop fuel 1, so the
dispatch returns with `w` still waiting in the ready queue. -/
def c10result : DispatchResult :=
  match EventDispatcher.dispatch c2env (fun _ => 0) 1 with
  | Except.ok r => r
  | Except.error _ => { success := false, final := initState c2env }

/-- C7: for every dispatch that returns (with distinct handler names), every
attempt of every handler sees, for each of its dependencies that returned a
value, exactly the latest returned value in its `HandlerContext.deps_results`
map — on every attempt, since the context is rebuilt from
`message_state.results` at task creation and the results map only grows. -/
theorem C7_deps_results_visibility (env : DispatchEnv) (sched : Nat → Nat)
    (fuel : Nat) (hnd : (specNames env.handlers).Nodup)
    (r : DispatchResult)
    (h : EventDispatcher.dispatch env sched fuel = Except.ok r) :
    c7Check env.handlers r.final.trace [] = true :=
  (dispatch_inv env sched fuel hnd r h).c7ok

/-- C7 witness: in the mixed-policy dispatch, `z` starts after `w` returned
`1` and its context carries `w ↦ 1`; the checker accepts the whole trace. -/
theorem C7_witness :
    (specNames c2env.handlers).Nodup ∧
    c7Check c2env.handlers c2result.final.trace [] = true :=
  ⟨by decide,
   C7_deps_results_visibility c2env (fun _ => 0) 60 (by decide) c2result
     (by decide)⟩

/-- C10: within a single dispatch (with distinct handler names), each handler
name is started at most once — the final trace holds at most one
`handlerStarted` event per name — and a name still sitting in the ready
queue when the dispatch returns has never been started at all. -/
theorem C10_started_at_most_once (env : DispatchEnv) (sched : Nat → Nat)
    (fuel : Nat) (hnd : (specNames env.handlers).Nodup)
    (r : DispatchResult)
    (h : EventDispatcher.dispatch env sched fuel = Except.ok r) (n : String) :
    r.final.trace.count (DispatchEvent.handlerStarted n) ≤ 1 ∧
    (n ∈ r.final.ready_queue →
      r.final.trace.count (DispatchEvent.handlerStarted n) = 0) := by
  have hm := dispatch_inv env sched fuel hnd r h
  constructor
  · rw [hm.started_eq n]
    split
    · exact Nat.le_refl 1
    · exact Nat.zero_le 1
  · intro hn
    have hf := hm.ready_fresh n hn
    rw [hm.started_eq n,
      if_neg (by push_neg; exact ⟨hf.1, hf.2.1, hf.2.2⟩)]

/-- C10 witness: the fuel-1 dispatch of the C2 graph ends with `w` still in
the ready queue; `w` is started zero times (and at most once). -/
theorem C10_witness :
    (specNames c2env.handlers).Nodup ∧
    "w" ∈ c10result.final.ready_queue ∧
    c10result.final.trace.count (DispatchEvent.handlerStarted "w") ≤ 1 ∧
    c10result.final.trace.count (DispatchEvent.handlerStarted "w") = 0 :=
  ⟨by decide, by decide,
   (C10_started_at_most_once c2env (fun _ => 0) 1 (by decide) c10result
     (by decide) "w").1,
   (C10_started_at_most_once c2env (fun _ => 0) 1 (by decide) c10result
     (by decide) "w").2 (by decide)⟩

theorem statusOf_update_self (ms : MessageState) (d : String)
    (f : HandlerState → HandlerState) :
    statusOf (updateHState ms d f) d = (f (hstateOf ms d)).status := by
  unfold statusOf hstateOf updateHState
  rw [lookupA_setA_self]
  rfl

theorem statusOf_update_ne (ms : MessageState) (d n : String)
    (f : HandlerState → HandlerState) (h : n ≠ d) :
    statusOf (updateHState ms d f) n = statusOf ms n := by
  unfold statusOf hstateOf updateHState
  rw [lookupA_setA_ne _ _ _ _ h]

theorem dependentsOf_subset_names (handlers : List HandlerSpec) (x : String) :
    ∀ d ∈ dependentsOf handlers x, d ∈ specNames handlers := by
  intro d hd
  rcases List.mem_map.mp hd with ⟨s, hs, rfl⟩
  exact List.mem_map_of_mem _ (List.mem_of_mem_filter hs)

theorem dependentsOf_length_le (handlers : List HandlerSpec) (x : String) :
    (dependentsOf handlers x).length ≤ handlers.length := by
  unfold dependentsOf
  rw [List.length_map]
  exact List.length_filter_le _ _

theorem countP_lt {α : Type} (l : List α) (p q : α → Bool)
    (himp : ∀ n ∈ l, q n = true → p n = true)
    (d : α) (hd : d ∈ l) (hp : p d = true) (hq : q d = false) :
    l.countP q < l.countP p := by
  have h0 : (if false = true then 1 else 0) = 0 := rfl
  have h1 : (if true = true then 1 else 0) = 1 := rfl
  induction l with
  | nil => simp at hd
  | cons a t ih =>
    rw [List.countP_cons, List.countP_cons]
    rcases List.mem_cons.mp hd with rfl | hd2
    · rw [hp, hq, h0, h1]
      have hle : t.countP q ≤ t.countP p :=
        List.countP_mono_left (fun n hn => himp n (List.mem_cons_of_mem _ hn))
      omega
    · have hlt := ih (fun n hn => himp n (List.mem_cons_of_mem _ hn)) hd2
      have hif : (if q a = true then 1 else 0) ≤ (if p a = true then 1 else 0) := by
        by_cases hqa : q a = true
        · rw [hqa, himp a (List.mem_cons_self a t) hqa, h1]
        · rw [Bool.not_eq_true] at hqa
          rw [hqa, h0]
          omega
      omega

/-- Modelled from the amended claim: `m` is reachable from the failed
handler `x` along dependent edges (reversed `depends_on` edges) such that
every node on the chain, including `m`, is `PENDING` in `ms`. This is the
set the worklist of `_mark_dependents_skipped` marks. -/
inductive PendChain (handlers : List HandlerSpec) (ms : MessageState)
    (x : String) : String → Prop
  | base (d : String) (hd : d ∈ dependentsOf handlers x)
      (hp : statusOf ms d = HandlerStatus.PENDING) : PendChain handlers ms x d
  | step (c d : String) (hc : PendChain handlers ms x c)
      (hd : d ∈ dependentsOf handlers c)
      (hp : statusOf ms d = HandlerStatus.PENDING) : PendChain handlers ms x d

theorem pendChain_pending (handlers : List HandlerSpec) (ms : MessageState)
    (x m : String) (h : PendChain handlers ms x m) :
    statusOf ms m = HandlerStatus.PENDING := by
  cases h with
  | base d hd hp => exact hp
  | step c d hc hd hp => exact hp

/-- Reachability from a worklist entry `d` along dependent edges whose
sources are currently `PENDING`; the invariant language of the worklist
proof. -/
inductive ReachVia (handlers : List HandlerSpec) (ms : MessageState) :
    String → String → Prop
  | refl (d : String) : ReachVia handlers ms d d
  | step (d c e : String) (h : ReachVia handlers ms d c)
      (hp : statusOf ms c = HandlerStatus.PENDING)
      (he : e ∈ dependentsOf handlers c) : ReachVia handlers ms d e

theorem reachVia_of_blocked (handlers : List HandlerSpec) (ms : MessageState)
    (d : String) (hd : statusOf ms d ≠ HandlerStatus.PENDING) :
    ∀ m, ReachVia handlers ms d m → m = d := by
  intro m h
  induction h with
  | refl => rfl
  | step c e h hp he ih =>
    subst ih
    exact absurd hp hd

theorem reachVia_shift (handlers : List HandlerSpec) (ms : MessageState)
    (d : String) (f : HandlerState → HandlerState) :
    ∀ d0 m, ReachVia handlers ms d0 m →
      m = d ∨ ∃ e, (e = d0 ∨ e ∈ dependentsOf handlers d) ∧
        ReachVia handlers (updateHState ms d f) e m := by
  intro d0 m h
  induction h with
  | refl =>
    by_cases hd1 : d0 = d
    · exact Or.inl hd1
    · exact Or.inr ⟨d0, Or.inl rfl, ReachVia.refl d0⟩
  | step c e h hp he ih =>
    by_cases hcd : c = d
    · subst hcd
      exact Or.inr ⟨e, Or.inr he, ReachVia.refl e⟩
    · rcases ih with hc | ⟨e2, hsrc, hre⟩
      · exact absurd hc hcd
      · refine Or.inr ⟨e2, hsrc, ReachVia.step e2 c e hre ?_ he⟩
        rw [statusOf_update_ne ms d c f hcd]
        exact hp

theorem markGo_char (handlers : List HandlerSpec) (x : String)
    (ms0 : MessageState) :
    ∀ (fuel : Nat) (Q : List String) (ms : MessageState),
      Q.length + (handlers.length + 1) *
        ((specNames handlers).countP
          (fun n => statusOf ms n = HandlerStatus.PENDING)) < fuel →
      (∀ d ∈ Q, (statusOf ms0 d = HandlerStatus.PENDING →
          PendChain handlers ms0 x d) ∧ d ∈ specNames handlers) →
      (∀ m, statusOf ms m = statusOf ms0 m ∨
        (statusOf ms0 m = HandlerStatus.PENDING ∧
         statusOf ms m = HandlerStatus.SKIPPED ∧ PendChain handlers ms0 x m)) →
      (∀ m, PendChain handlers ms0 x m →
        statusOf ms m = HandlerStatus.SKIPPED ∨
        ∃ d ∈ Q, ReachVia handlers ms d m) →
      ∀ m, statusOf (markSkippedGo handlers fuel Q ms) m =
          HandlerStatus.SKIPPED ↔
        (statusOf ms0 m = HandlerStatus.SKIPPED ∨
          PendChain handlers ms0 x m) := by
  intro fuel
  induction fuel with
  | zero =>
    intro Q ms hfuel
    exact absurd hfuel (Nat.not_lt_zero _)
  | succ fuel ih =>
    intro Q ms hfuel hQ hP hC m
    cases Q with
    | nil =>
      show statusOf ms m = HandlerStatus.SKIPPED ↔ _
      constructor
      · intro hs
        rcases hP m with hu | ⟨h1, h2, h3⟩
        · exact Or.inl (hu.symm.trans hs)
        · exact Or.inr h3
      · intro hor
        rcases hor with hs | hr
        · rcases hP m with hu | ⟨h1, h2, h3⟩
          · exact hu.trans hs
          · exact h2
        · rcases hC m hr with hh | ⟨d, hd, hrv⟩
          · exact hh
          · simp at hd
    | cons d rest =>
      unfold markSkippedGo
      by_cases hdp : statusOf ms d = HandlerStatus.PENDING
      · rw [if_pos hdp]
        have h0d : statusOf ms0 d = HandlerStatus.PENDING := by
          rcases hP d with hu | ⟨h1, h2, h3⟩
          · exact hu.symm.trans hdp
          · rw [h2] at hdp
            exact absurd hdp (by decide)
        have hRd : PendChain handlers ms0 x d :=
          (hQ d (List.mem_cons_self d rest)).1 h0d
        have hdn : d ∈ specNames handlers := (hQ d (List.mem_cons_self d rest)).2
        apply ih
        · -- the potential strictly decreases: one fewer pending handler
          have hcnt : (specNames handlers).countP
              (fun n => statusOf (updateHState ms d
                (fun h => { h with status := HandlerStatus.SKIPPED })) n =
                HandlerStatus.PENDING) <
              (specNames handlers).countP
                (fun n => statusOf ms n = HandlerStatus.PENDING) := by
            refine countP_lt _ _ _ ?_ d hdn ?_ ?_
            · intro n hn hq
              have hq2 := of_decide_eq_true hq
              by_cases hnd : n = d
              · subst hnd
                rw [statusOf_update_self] at hq2
                simp at hq2
              · rw [statusOf_update_ne ms d n _ hnd] at hq2
                exact decide_eq_true hq2
            · exact decide_eq_true hdp
            · refine decide_eq_false ?_
              rw [statusOf_update_self]
              intro hcon
              simp at hcon
          have hlen : (dependentsOf handlers d).length ≤ handlers.length :=
            dependentsOf_length_le handlers d
          have hmul : (handlers.length + 1) *
              ((specNames handlers).countP
                (fun n => statusOf (updateHState ms d
                  (fun h => { h with status := HandlerStatus.SKIPPED })) n =
                  HandlerStatus.PENDING)) + (handlers.length + 1) ≤
              (handlers.length + 1) *
                ((specNames handlers).countP
                  (fun n => statusOf ms n = HandlerStatus.PENDING)) := by
            have h1 := Nat.succ_le_of_lt hcnt
            calc (handlers.length + 1) * _ + (handlers.length + 1)
                = (handlers.length + 1) * (_ + 1) := by ring
              _ ≤ _ := Nat.mul_le_mul_left _ h1
          rw [List.length_cons] at hfuel
          have hfuel2 := Nat.lt_succ_iff.mp hfuel
          rw [List.length_append]
          have key : ∀ (a b L D N F : Nat), a + (N + 1) ≤ b →
              L + 1 + b ≤ F → D ≤ N → L + D + a < F := by
            intro a b L D N F k1 k2 k3
            omega
          exact key _ _ _ _ _ _ hmul hfuel2 hlen
        · intro d2 hd2
          rcases List.mem_append.mp hd2 with hd2 | hd2
          · exact hQ d2 (List.mem_cons_of_mem _ hd2)
          · refine ⟨fun hp2 => PendChain.step d d2 hRd hd2 hp2, ?_⟩
            exact dependentsOf_subset_names handlers d d2 hd2
        · intro m2
          by_cases hm2 : m2 = d
          · subst hm2
            refine Or.inr ⟨h0d, ?_, hRd⟩
            rw [statusOf_update_self]
          · rw [statusOf_update_ne ms d m2 _ hm2]
            exact hP m2
        · intro m2 hr2
          rcases hC m2 hr2 with hs2 | ⟨d0, hd0, hrv⟩
          · by_cases hm2 : m2 = d
            · subst hm2
              refine Or.inl ?_
              rw [statusOf_update_self]
            · refine Or.inl ?_
              rw [statusOf_update_ne ms d m2 _ hm2]
              exact hs2
          · rcases reachVia_shift handlers ms d
              (fun h => { h with status := HandlerStatus.SKIPPED }) d0 m2 hrv
              with hm2 | ⟨e, hsrc, hre⟩
            · subst hm2
              refine Or.inl ?_
              rw [statusOf_update_self]
            · rcases hsrc with hed0 | hed
              · subst hed0
                rcases List.mem_cons.mp hd0 with hd0d | hd0r
                · subst hd0d
                  have hm2 := reachVia_of_blocked handlers
                    (updateHState ms e
                      (fun h => { h with status := HandlerStatus.SKIPPED }))
                    e
                    (by
                      rw [statusOf_update_self]
                      simp) m2 hre
                  subst hm2
                  refine Or.inl ?_
                  rw [statusOf_update_self]
                · exact Or.inr ⟨e, List.mem_append.mpr (Or.inl hd0r), hre⟩
              · exact Or.inr ⟨e, List.mem_append.mpr (Or.inr hed), hre⟩
      · rw [if_neg hdp]
        apply ih
        · rw [List.length_cons] at hfuel
          have hfuel2 := Nat.lt_succ_iff.mp hfuel
          have key : ∀ (b L F : Nat), L + 1 + b ≤ F → L + b < F := by
            intro b L F k
            omega
          exact key _ _ _ hfuel2
        · intro d2 hd2
          exact hQ d2 (List.mem_cons_of_mem _ hd2)
        · exact hP
        · intro m2 hr2
          rcases hC m2 hr2 with hs2 | ⟨d0, hd0, hrv⟩
          · exact Or.inl hs2
          · rcases List.mem_cons.mp hd0 with hd0d | hd0r
            · subst hd0d
              have hm2 := reachVia_of_blocked handlers ms d0 hdp m2 hrv
              subst hm2
              rcases hP m2 with hu | ⟨h1, h2, h3⟩
              · exact absurd (hu.trans (pendChain_pending handlers ms0 x m2 hr2)) hdp
              · exact Or.inl h2
            · exact Or.inr ⟨d0, hd0r, hrv⟩

theorem mark_dependents_skipped_char (handlers : List HandlerSpec) (x : String)
    (ms : MessageState) (m : String) :
    statusOf (mark_dependents_skipped handlers x ms) m =
        HandlerStatus.SKIPPED ↔
      (statusOf ms m = HandlerStatus.SKIPPED ∨ PendChain handlers ms x m) := by
  unfold mark_dependents_skipped
  apply markGo_char handlers x ms
    ((handlers.length + 1) * (handlers.length + 1))
    (dependentsOf handlers x) ms
  · have h1 : (dependentsOf handlers x).length ≤ handlers.length :=
      dependentsOf_length_le handlers x
    have h2 : (specNames handlers).countP
        (fun n => statusOf ms n = HandlerStatus.PENDING) ≤ handlers.length := by
      have h3 := List.countP_le_length
        (fun n => decide (statusOf ms n = HandlerStatus.PENDING))
        (l := specNames handlers)
      simpa [specNames] using h3
    have hb : (handlers.length + 1) * handlers.length =
        handlers.length * handlers.length + handlers.length := by ring
    have hsq : (handlers.length + 1) * (handlers.length + 1) =
        handlers.length * handlers.length + 2 * handlers.length + 1 := by ring
    have hmc : (handlers.length + 1) *
        ((specNames handlers).countP
          (fun n => statusOf ms n = HandlerStatus.PENDING)) ≤
        (handlers.length + 1) * handlers.length :=
      Nat.mul_le_mul_left _ h2
    rw [hsq]
    rw [hb] at hmc
    have key : ∀ (a s D N : Nat), a ≤ s + N → D ≤ N →
        D + a < s + 2 * N + 1 := by
      intro a s D N k1 k2
      omega
    exact key _ _ _ _ hmc h1
  · intro d hd
    exact ⟨fun hp => PendChain.base d hd hp,
      dependentsOf_subset_names handlers x d hd⟩
  · intro m2
    exact Or.inl rfl
  · intro m2 hr
    induction hr with
    | base d hd hp => exact Or.inr ⟨d, hd, ReachVia.refl d⟩
    | step c d2 hc hd hp ih =>
      rcases ih with hs | ⟨d0, hd0, hrv⟩
      · exact absurd ((pendChain_pending handlers ms x c hc).symm.trans hs)
          (by decide)
      · exact Or.inr ⟨d0, hd0, ReachVia.step d0 c d2 hrv
          (pendChain_pending handlers ms x c hc) hd⟩

/-- The registered spec of the aborting handler `x` of the C2 graph. -/
def c2xspec : HandlerSpec :=
  match c2handlers.find? (fun s => s.name = "x") with
  | some s => s
  | none => okSpec

/-- The graph state on which the C2 witness runs the abort completion:
`x` has been popped from the ready queue and is in progress. -/
def c2failStf : ExecState :=
  { initState c2env with in_progress := ["x"], ready_queue := ["w"] }

/-- The state after the abort completion of `x` in the C2 witness. -/
def c2failRes : ExecState :=
  match failCompletion c2env c2failStf "x" c2xspec 9 with
  | Except.ok st => st
  | Except.error p => p.2

/-- C2 (amended): when a handler fails and its failure policy is `abort`,
the completion path schedules nothing (the ready queue is exactly as
before), and `_mark_dependents_skipped` marks `SKIPPED` exactly the
handlers reachable from the failed handler along dependent edges running
through `PENDING` handlers (plus those already `SKIPPED`); but being marked
does not guarantee staying un-run: in the mixed-policy dispatch, `y`
depends on the abort-failed `x`, yet `y` is started and ends `SUCCEEDED`,
because later scheduling consults only the completion sets, never the
`SKIPPED` status. -/
theorem C2_amended_abort_marking :
    (∀ (handlers : List HandlerSpec) (x : String) (ms : MessageState)
      (m : String),
      statusOf (mark_dependents_skipped handlers x ms) m =
          HandlerStatus.SKIPPED ↔
        (statusOf ms m = HandlerStatus.SKIPPED ∨ PendChain handlers ms x m)) ∧
    (∀ (env : DispatchEnv) (stf : ExecState) (name : String)
      (spec : HandlerSpec) (e : Nat) (st3 : ExecState),
      spec.failure_policy = FailurePolicy.ABORT →
      failCompletion env stf name spec e = Except.ok st3 →
      st3.ready_queue = stf.ready_queue) ∧
    ("x" ∈ dependsOn c2handlers "y" ∧
     statusOf c2result.final.mstate "x" = HandlerStatus.FAILED ∧
     "y" ∈ startedNames c2result.final.trace ∧
     statusOf c2result.final.mstate "y" = HandlerStatus.SUCCEEDED) := by
  refine ⟨mark_dependents_skipped_char, ?_, by decide⟩
  intro env stf name spec e st3 hab h
  unfold failCompletion at h
  split at h
  · simp at h
  · rw [if_pos hab] at h
    simp only [Except.ok.injEq] at h
    subst h
    rfl

/-- C2 amended witness: the abort completion of `x` on a concrete graph
state leaves the ready queue (`["w"]`) unchanged, and the marking
characterization instantiates at `y`. -/
theorem C2_amended_witness :
    c2xspec.failure_policy = FailurePolicy.ABORT ∧
    failCompletion c2env c2failStf "x" c2xspec 9 = Except.ok c2failRes ∧
    c2failRes.ready_queue = c2failStf.ready_queue ∧
    (statusOf (mark_dependents_skipped c2handlers "x"
        (initState c2env).mstate) "y" = HandlerStatus.SKIPPED ↔
      (statusOf (initState c2env).mstate "y" = HandlerStatus.SKIPPED ∨
        PendChain c2handlers (initState c2env).mstate "x" "y")) :=
  ⟨by decide, by decide,
   C2_amended_abort_marking.2.1 c2env c2failStf "x" c2xspec 9 c2failRes
     (by decide) (by decide),
   C2_amended_abort_marking.1 c2handlers "x" (initState c2env).mstate "y"⟩

/-- The dependent-spec lookup of `_schedule_ready_dependents` (dispatcher.py
lines 300-305): scan `self.router._handlers.values()` — every event type's
map, in registration order — and take the spec from the first map containing
the name. -/
def routerFindSpec (router : List (String × List HandlerSpec)) (n : String) :
    Option HandlerSpec :=
  match router with
  | [] => none
  | (_, hs) :: rest =>
    match hs.find? (fun s => s.name = n) with
    | some s => some s
    | none => routerFindSpec rest n

/-- `EventDispatcher._schedule_ready_dependents` with the source's
router-wide dependent lookup. `schedule_ready_dependents` above is the
specialization of this function to the case where every dispatched handler
name resolves within the dispatched map, which the claims insensitive to the
lookup scope use. -/
def schedule_ready_dependentsR (router : List (String × List HandlerSpec))
    (handlers : List HandlerSpec)
    (completed_handler : String) (fp : FailurePolicy)
    (completed failed in_progress : List String)
    (ready : List String) : List String :=
  (dependentsOf handlers completed_handler).foldl
    (fun rq dependent =>
      if dependent ∉ completed ∧ dependent ∉ failed ∧
          dependent ∉ in_progress ∧ dependent ∉ rq then
        match routerFindSpec router dependent with
        | some dep_spec =>
          if all_dependencies_satisfied dep_spec completed failed fp then
            rq ++ [dependent]
          else rq
        | none => rq
      else rq)
    ready

/-- `failCompletion` with the router-wide dependent lookup in the
scheduling call. -/
def failCompletionR (router : List (String × List HandlerSpec))
    (env : DispatchEnv) (st : ExecState) (name : String)
    (spec : HandlerSpec) (e : Nat) : Except (Nat × ExecState) ExecState :=
  let ms1 := updateHState st.mstate name
    (fun h => { h with status := HandlerStatus.FAILED, last_error := some e })
  match env.store.mark_failed_error name with
  | some me => Except.error (me, { st with mstate := ms1 })
  | none =>
    let failed1 := st.failed ++ [name]
    let inprog1 := st.in_progress.erase name
    if spec.failure_policy = FailurePolicy.ABORT then
      Except.ok { st with
        mstate := mark_dependents_skipped env.handlers name ms1,
        failed := failed1, in_progress := inprog1,
        trace := st.trace ++ [DispatchEvent.handlerFailed name] }
    else
      Except.ok { st with
        mstate := ms1, failed := failed1, in_progress := inprog1,
        ready_queue := schedule_ready_dependentsR router env.handlers name
          spec.failure_policy st.completed failed1 inprog1 st.ready_queue,
        trace := st.trace ++ [DispatchEvent.handlerFailed name] }

/-- `runAttempt` with the router-wide dependent lookup in the scheduling
calls. -/
def runAttemptR (router : List (String × List HandlerSpec))
    (env : DispatchEnv) (st : ExecState) (t : RunningTask) :
    Except (Nat × ExecState) ExecState :=
  match env.handlers.find? (fun s => s.name = t.name) with
  | none => Except.ok st
  | some spec =>
    let ms0 := updateHState st.mstate t.name
      (fun h => { h with attempts := t.attempt, status := HandlerStatus.RUNNING })
    let ctx : HandlerContext :=
      { event := env.event, deps_results := ms0.results, attempt := t.attempt,
        message_id := ms0.message_id, metadata := spec.metadata }
    let tr1 := st.trace ++ [DispatchEvent.attemptStarted t.name ctx]
    match spec.handler ctx with
    | HandlerOutcome.ok v =>
      let tr2 := tr1 ++ [DispatchEvent.attemptReturned t.name v]
      let ms1 := updateHState ms0 t.name
        (fun h => { h with status := HandlerStatus.SUCCEEDED, result := some v })
      let ms2 := { ms1 with results := setA ms1.results t.name v }
      match env.store.save_error t.name with
      | some se =>
        failCompletionR router env { st with mstate := ms2, trace := tr2 }
          t.name spec se
      | none =>
        let completed1 := st.completed ++ [t.name]
        let inprog1 := st.in_progress.erase t.name
        Except.ok { st with
          mstate := ms2,
          completed := completed1, in_progress := inprog1,
          ready_queue := schedule_ready_dependentsR router env.handlers t.name
            spec.failure_policy completed1 st.failed inprog1 st.ready_queue,
          trace := tr2 ++ [DispatchEvent.handlerSucceeded t.name v] }
    | HandlerOutcome.exn e =>
      let tr2 := tr1 ++ [DispatchEvent.attemptErrored t.name e]
      if spec.retry_policy.should_retry t.attempt e then
        Except.ok { st with
          mstate := ms0, trace := tr2 ++ visEvents env,
          running := st.running ++ [{ name := t.name, attempt := t.attempt + 1 }] }
      else
        failCompletionR router env { st with mstate := ms0, trace := tr2 }
          t.name spec e

/-- `execLoop` with the router-wide dependent lookup in the scheduling
calls. -/
def execLoopR (router : List (String × List HandlerSpec)) (env : DispatchEnv)
    (sched : Nat → Nat) :
    Nat → Nat → ExecState → Except (Nat × ExecState) ExecState
  | _, 0, st => Except.ok st
  | k, fuel + 1, st =>
    if st.ready_queue.isEmpty ∧ st.running.isEmpty then Except.ok st
    else
      let st1 := fillState env st
      match st1.running with
      | [] => execLoopR router env sched (k + 1) fuel st1
      | _ :: _ =>
        let p := pickTask st1.running (sched k % st1.running.length)
        match runAttemptR router env { st1 with running := p.2 } p.1 with
        | Except.error es => Except.error es
        | Except.ok st3 => execLoopR router env sched (k + 1) fuel st3

/-- `EventDispatcher.dispatch` with the router of all registered event
types, whose maps `_schedule_ready_dependents` scans for dependent specs;
`env.handlers` is the map `handlers_for` returns for the dispatched
message's event type. -/
def EventDispatcher.dispatchR (router : List (String × List HandlerSpec))
    (env : DispatchEnv) (sched : Nat → Nat)
    (fuel : Nat) : Except Nat DispatchResult :=
  if env.handlers.isEmpty then
    Except.ok { success := true, final := initState env }
  else
    match env.store.init_error with
    | some e => Except.error e
    | none =>
      match execLoopR router env sched 0 fuel (initState env) with
      | Except.ok st =>
        let s := evaluate_final_success env.handlers st.completed st.failed
        Except.ok { success := s,
                    final := { st with
                      mstate := { st.mstate with
                        overall_status := if s then "completed" else "failed" } } }
      | Except.error est =>
        Except.ok { success := false,
                    final := { est.2 with
                      mstate := { est.2.mstate with
                        overall_status := "error" } } }

theorem all_dependencies_satisfied_congr (s1 s2 : HandlerSpec)
    (h : s1.depends_on = s2.depends_on) (completed failed : List String)
    (fp : FailurePolicy) :
    all_dependencies_satisfied s1 completed failed fp =
      all_dependencies_satisfied s2 completed failed fp := by
  unfold all_dependencies_satisfied
  rw [h]

theorem lookup_sched_branch_eq (o1 o2 : Option HandlerSpec)
    (h : o1.map (fun s => s.depends_on) = o2.map (fun s => s.depends_on))
    (completed failed : List String) (fp : FailurePolicy) (rq : List String)
    (d : String) :
    (match o1 with
     | some dep_spec =>
       if all_dependencies_satisfied dep_spec completed failed fp then
         rq ++ [d]
       else rq
     | none => rq) =
    (match o2 with
     | some dep_spec =>
       if all_dependencies_satisfied dep_spec completed failed fp then
         rq ++ [d]
       else rq
     | none => rq) := by
  cases o1 with
  | none =>
    cases o2 with
    | none => rfl
    | some s2 => simp at h
  | some s1 =>
    cases o2 with
    | none => simp at h
    | some s2 =>
      have h2 : s1.depends_on = s2.depends_on := by simpa using h
      show (if all_dependencies_satisfied s1 completed failed fp then
          rq ++ [d] else rq) = _
      rw [all_dependencies_satisfied_congr s1 s2 h2]

theorem schedule_ready_dependentsR_eq
    (router : List (String × List HandlerSpec)) (handlers : List HandlerSpec)
    (hagree : ∀ n ∈ specNames handlers,
      (routerFindSpec router n).map (fun s => s.depends_on) =
        (handlers.find? (fun s => s.name = n)).map (fun s => s.depends_on)) :
    ∀ (x : String) (fp : FailurePolicy)
      (completed failed in_progress ready : List String),
      schedule_ready_dependentsR router handlers x fp
          completed failed in_progress ready =
        schedule_ready_dependents handlers x fp
          completed failed in_progress ready := by
  intro x fp completed failed in_progress ready
  unfold schedule_ready_dependentsR schedule_ready_dependents
  have aux : ∀ (ds : List String), (∀ d ∈ ds, d ∈ specNames handlers) →
      ∀ (rq : List String),
      ds.foldl
        (fun rq dependent =>
          if dependent ∉ completed ∧ dependent ∉ failed ∧
              dependent ∉ in_progress ∧ dependent ∉ rq then
            match routerFindSpec router dependent with
            | some dep_spec =>
              if all_dependencies_satisfied dep_spec completed failed fp then
                rq ++ [dependent]
              else rq
            | none => rq
          else rq)
        rq =
      ds.foldl
        (fun rq dependent =>
          if dependent ∉ completed ∧ dependent ∉ failed ∧
              dependent ∉ in_progress ∧ dependent ∉ rq then
            match handlers.find? (fun s => s.name = dependent) with
            | some dep_spec =>
              if all_dependencies_satisfied dep_spec completed failed fp then
                rq ++ [dependent]
              else rq
            | none => rq
          else rq)
        rq := by
    intro ds
    induction ds with
    | nil =>
      intro _ rq
      rfl
    | cons d rest ih =>
      intro hmem rq
      simp only [List.foldl_cons]
      have hstep : (if d ∉ completed ∧ d ∉ failed ∧
            d ∉ in_progress ∧ d ∉ rq then
          match routerFindSpec router d with
          | some dep_spec =>
            if all_dependencies_satisfied dep_spec completed failed fp then
              rq ++ [d]
            else rq
          | none => rq
        else rq) =
        (if d ∉ completed ∧ d ∉ failed ∧
            d ∉ in_progress ∧ d ∉ rq then
          match handlers.find? (fun s => s.name = d) with
          | some dep_spec =>
            if all_dependencies_satisfied dep_spec completed failed fp then
              rq ++ [d]
            else rq
          | none => rq
        else rq) := by
        by_cases hfr : d ∉ completed ∧ d ∉ failed ∧ d ∉ in_progress ∧ d ∉ rq
        · rw [if_pos hfr, if_pos hfr]
          have hag := hagree d (hmem d (List.mem_cons_self d rest))
          cases hr : routerFindSpec router d with
          | none =>
            cases hf : handlers.find? (fun s => s.name = d) with
            | none => rfl
            | some s2 =>
              rw [hr, hf] at hag
              simp at hag
          | some s1 =>
            cases hf : handlers.find? (fun s => s.name = d) with
            | none =>
              rw [hr, hf] at hag
              simp at hag
            | some s2 =>
              rw [hr, hf] at hag
              have h2 : s1.depends_on = s2.depends_on := by simpa using hag
              show (if all_dependencies_satisfied s1 completed failed fp then
                  rq ++ [d] else rq) =
                (if all_dependencies_satisfied s2 completed failed fp then
                  rq ++ [d] else rq)
              rw [all_dependencies_satisfied_congr s1 s2 h2]
        · rw [if_neg hfr, if_neg hfr]
      rw [hstep]
      exact ih (fun d2 h2 => hmem d2 (List.mem_cons_of_mem _ h2)) _
  exact aux _ (dependentsOf_subset_names handlers x) ready

theorem failCompletionR_eq (router : List (String × List HandlerSpec))
    (env : DispatchEnv)
    (hagree : ∀ n ∈ specNames env.handlers,
      (routerFindSpec router n).map (fun s => s.depends_on) =
        (env.handlers.find? (fun s => s.name = n)).map
          (fun s => s.depends_on)) :
    ∀ (st : ExecState) (name : String) (spec : HandlerSpec) (e : Nat),
      failCompletionR router env st name spec e =
        failCompletion env st name spec e := by
  intro st name spec e
  unfold failCompletionR failCompletion
  simp only [schedule_ready_dependentsR_eq router env.handlers hagree]

theorem runAttemptR_eq (router : List (String × List HandlerSpec))
    (env : DispatchEnv)
    (hagree : ∀ n ∈ specNames env.handlers,
      (routerFindSpec router n).map (fun s => s.depends_on) =
        (env.handlers.find? (fun s => s.name = n)).map
          (fun s => s.depends_on)) :
    ∀ (st : ExecState) (t : RunningTask),
      runAttemptR router env st t = runAttempt env st t := by
  intro st t
  unfold runAttemptR runAttempt
  simp only [schedule_ready_dependentsR_eq router env.handlers hagree,
    failCompletionR_eq router env hagree]

theorem execLoopR_eq (router : List (String × List HandlerSpec))
    (env : DispatchEnv) (sched : Nat → Nat)
    (hagree : ∀ n ∈ specNames env.handlers,
      (routerFindSpec router n).map (fun s => s.depends_on) =
        (env.handlers.find? (fun s => s.name = n)).map
          (fun s => s.depends_on)) :
    ∀ (fuel k : Nat) (st : ExecState),
      execLoopR router env sched k fuel st = execLoop env sched k fuel st := by
  intro fuel
  induction fuel with
  | zero =>
    intro k st
    rfl
  | succ fuel ih =>
    intro k st
    unfold execLoopR execLoop
    simp only [runAttemptR_eq router env hagree, ih]

theorem dispatchR_eq (router : List (String × List HandlerSpec))
    (env : DispatchEnv) (sched : Nat → Nat) (fuel : Nat)
    (hagree : ∀ n ∈ specNames env.handlers,
      (routerFindSpec router n).map (fun s => s.depends_on) =
        (env.handlers.find? (fun s => s.name = n)).map
          (fun s => s.depends_on)) :
    EventDispatcher.dispatchR router env sched fuel =
      EventDispatcher.dispatch env sched fuel := by
  unfold EventDispatcher.dispatchR EventDispatcher.dispatch
  simp only [execLoopR_eq router env sched hagree]

/-- The handler registered first, under another event type, sharing the
name `h` and declaring no dependencies. -/
def colER : HandlerSpec :=
  { name := "h", handler := fun _ => HandlerOutcome.ok 0, depends_on := [],
    retry_policy := NoRetryPolicy, failure_policy := FailurePolicy.CONTINUE }

/-- Independent handler `g` of the dispatched event type. -/
def colG : HandlerSpec :=
  { name := "g", handler := fun _ => HandlerOutcome.ok 1, depends_on := [],
    retry_policy := NoRetryPolicy, failure_policy := FailurePolicy.CONTINUE }

/-- Independent handler `k` of the dispatched event type. -/
def colK : HandlerSpec :=
  { name := "k", handler := fun _ => HandlerOutcome.ok 2, depends_on := [],
    retry_policy := NoRetryPolicy, failure_policy := FailurePolicy.CONTINUE }

/-- The dispatched event type's `h`: depends on both `g` and `k`. -/
def colH : HandlerSpec :=
  { name := "h", handler := fun _ => HandlerOutcome.ok 3,
    depends_on := ["g", "k"],
    retry_policy := NoRetryPolicy, failure_policy := FailurePolicy.CONTINUE }

/-- The router with the colliding registration: `other:event` was registered
first, so its map is scanned first by the dependent lookup. -/
def colRouter : List (String × List HandlerSpec) :=
  [("other:event", [colER]), ("checkout:complete", [colG, colK, colH])]

/-- The dispatch of a `checkout:complete` message against `colRouter`. -/
def colEnv : DispatchEnv :=
  { handlers := [colG, colK, colH], event := checkoutEvent,
    message_id := "m1", receipt_handle := "r1", concurrency_limit := 2 }

/-- Completion order: `g` settles first while `k` is still running; after
`h` is scheduled, `h`'s attempt settles before `k`. -/
def colSched : Nat → Nat := fun k => if k = 1 then 1 else 0

/-- The result of the colliding-name dispatch. -/
def colResult : DispatchResult :=
  match EventDispatcher.dispatchR colRouter colEnv colSched 40 with
  | Except.ok r => r
  | Except.error _ => { success := false, final := initState colEnv }

/-- C1 counterexample: `h` of the dispatched event declares
`depends_on = ["g","k"]`, but the dependent lookup of
`_schedule_ready_dependents` scans all event types and finds the
`other:event` handler named `h` first, whose empty `depends_on` makes the
gate check vacuous; `h` is scheduled and its first attempt starts while `k`
has no terminal event, so the dependency-gating checker rejects the trace —
yet `h` runs to completion. -/
theorem C1_counterexample :
    EventDispatcher.dispatchR colRouter colEnv colSched 40 =
      Except.ok colResult ∧
    dependsOn colEnv.handlers "h" = ["g", "k"] ∧
    (routerFindSpec colRouter "h").map (fun s => s.depends_on) = some [] ∧
    (colEnv.handlers.find? (fun s => s.name = "h")).map
      (fun s => s.depends_on) = some ["g", "k"] ∧
    c1Check colEnv.handlers colResult.final.trace [] = false ∧
    statusOf colResult.final.mstate "h" = HandlerStatus.SUCCEEDED := by
  decide

/-- C1 (amended): the dependency gate holds whenever the router-wide
dependent lookup agrees, on every dispatched handler name, with the
dispatched event's own map (in particular when no earlier-registered event
type shares a handler name): then, under the dict invariant that the
dispatched handler names are distinct, every attempt start of a handler is
preceded by a terminal event for each name in its `depends_on`.
Unconditionally, the initial ready queue seeds exactly the handlers whose
`depends_on` list is empty. -/
theorem C1_amended_dependency_gating
    (router : List (String × List HandlerSpec))
    (env : DispatchEnv) (sched : Nat → Nat) (fuel : Nat)
    (hnd : (specNames env.handlers).Nodup)
    (hagree : ∀ n ∈ specNames env.handlers,
      (routerFindSpec router n).map (fun s => s.depends_on) =
        (env.handlers.find? (fun s => s.name = n)).map
          (fun s => s.depends_on))
    (r : DispatchResult)
    (h : EventDispatcher.dispatchR router env sched fuel = Except.ok r) :
    c1Check env.handlers r.final.trace [] = true ∧
    ∀ n, n ∈ (initState env).ready_queue ↔
      ∃ s ∈ env.handlers, s.name = n ∧ s.depends_on = [] := by
  rw [dispatchR_eq router env sched fuel hagree] at h
  refine ⟨(dispatch_inv env sched fuel hnd r h).c1ok, ?_⟩
  intro n
  constructor
  · intro hn
    simp only [initState] at hn
    rcases List.mem_map.mp hn with ⟨s, hs, rfl⟩
    have hsf := List.mem_filter.mp hs
    refine ⟨s, hsf.1, rfl, ?_⟩
    have := hsf.2
    simpa [List.isEmpty_iff] using this
  · rintro ⟨s, hs, rfl, hdep⟩
    simp only [initState]
    exact List.mem_map.mpr ⟨s, List.mem_filter.mpr ⟨hs, by simp [hdep]⟩, rfl⟩

/-- A router whose only registration is the dispatched event type, so the
lookup agreement holds. -/
def c1agreeRouter : List (String × List HandlerSpec) :=
  [("checkout:complete", c2handlers)]

/-- The mixed-policy dispatch run through the router-wide machine. -/
def c1agreeResult : DispatchResult :=
  match EventDispatcher.dispatchR c1agreeRouter c2env (fun _ => 0) 60 with
  | Except.ok r => r
  | Except.error _ => { success := false, final := initState c2env }

/-- C1 amended witness: with the sole-event-type router, the lookup
agreement holds, the mixed-policy dispatch satisfies the dependency gate,
and `x` (no dependencies) is seeded. -/
theorem C1_amended_witness :
    (specNames c2env.handlers).Nodup ∧
    (∀ n ∈ specNames c2env.handlers,
      (routerFindSpec c1agreeRouter n).map (fun s => s.depends_on) =
        (c2env.handlers.find? (fun s => s.name = n)).map
          (fun s => s.depends_on)) ∧
    c1Check c2env.handlers c1agreeResult.final.trace [] = true ∧
    ("x" ∈ (initState c2env).ready_queue ↔
      ∃ s ∈ c2env.handlers, s.name = "x" ∧ s.depends_on = []) :=
  ⟨by decide, by decide,
   (C1_amended_dependency_gating c1agreeRouter c2env (fun _ => 0) 60
     (by decide) (by decide) c1agreeResult (by decide)).1,
   (C1_amended_dependency_gating c1agreeRouter c2env (fun _ => 0) 60
     (by decide) (by decide) c1agreeResult (by decide)).2 "x"⟩
